import Mathlib

/-!
Verification development for the HarmonyOS UI inspector MCP server.

The definitions below are a shallow embedding of the TypeScript sources:
  src/parsers/renderService.ts   (RenderServiceParser)
  src/parsers/elementLocator.ts  (ElementLocator)
  src/automation/controller.ts   (UIController, provided as unnamed part_002)
  src/utils/hdc.ts               (Validator, HDC)
  src/index.ts                   (the MCP tool dispatch, case of the text tool)

JavaScript numbers are modelled as rationals (with an explicit NaN
constructor where the code can meet NaN), strings as Lean Strings over
their character lists, and the regular expressions of the sources as
explicit leftmost-match scanning functions.  Mutation of the parser's
ancestor stack is modelled by attach-on-pop state passing, which produces
the same trees in the same child order as the imperative original.
-/

/-! ## JavaScript-level string and number primitives -/

/-- The whitespace class used by the sources' regexes and trims, restricted
to the characters that can occur inside one line of a device dump. -/
def isJsSpace (c : Char) : Bool :=
  c = ' ' || c = '\t' || c = '\r' || c = '\n'

/-- Digit character, as matched by a backslash-d in the sources' regexes. -/
def isDigitCh (c : Char) : Bool :=
  '0' ≤ c && c ≤ '9'

/-- Word character, as matched by a backslash-w in the sources' regexes. -/
def isWordCh (c : Char) : Bool :=
  c.isAlphanum || c = '_'

/-- Numeric value of a list of digit characters (parseInt on a digit run). -/
def digitsToNat (ds : List Char) : Nat :=
  ds.foldl (fun a c => a * 10 + (c.toNat - '0'.toNat)) 0

/-- String.prototype.startsWith at the character-list level. -/
def leadsWith : List Char → List Char → Bool
  | [], _ => true
  | _ :: _, [] => false
  | a :: as, b :: bs => a == b && leadsWith as bs

/-- String.prototype.includes at the character-list level. -/
def hasSubChars (sub : List Char) : List Char → Bool
  | [] => sub.isEmpty
  | l@(_ :: tl) => leadsWith sub l || hasSubChars sub tl

/-- s.includes(sub) of JavaScript. -/
def jsIncludes (s sub : String) : Bool :=
  hasSubChars sub.data s.data

/-- s.startsWith(sub) of JavaScript. -/
def jsStartsWith (s sub : String) : Bool :=
  leadsWith sub.data s.data

/-- s.endsWith(sub) of JavaScript. -/
def jsEndsWith (s sub : String) : Bool :=
  leadsWith sub.data.reverse s.data.reverse

/-- s.toLowerCase() of JavaScript, on the ASCII range the dumps use. -/
def jsToLower (s : String) : String :=
  String.mk (s.data.map Char.toLower)

/-- s.trim() of JavaScript. -/
def trimChars (l : List Char) : List Char :=
  ((l.dropWhile isJsSpace).reverse.dropWhile isJsSpace).reverse

/-- split('\n') of JavaScript, keeping empty segments. -/
def splitLinesCh : List Char → List (List Char)
  | [] => [[]]
  | c :: cs =>
    if c = '\n' then [] :: splitLinesCh cs
    else
      match splitLinesCh cs with
      | l :: ls => (c :: l) :: ls
      | [] => [[c]]

/-- split(sep) of JavaScript for a one-character separator. -/
def splitOnCh (sep : Char) : List Char → List (List Char)
  | [] => [[]]
  | c :: cs =>
    if c = sep then [] :: splitOnCh sep cs
    else
      match splitOnCh sep cs with
      | l :: ls => (c :: l) :: ls
      | [] => [[c]]

/-- Math.round of JavaScript on a rational (half rounds toward plus infinity). -/
def jsRound (q : ℚ) : ℤ :=
  ⌊q + 1 / 2⌋

/-- A JavaScript number: NaN or a finite rational. -/
inductive JSNum : Type where
  | nan : JSNum
  | fin : ℚ → JSNum
deriving DecidableEq

/-! ## Leftmost-match regex scanning

Each matcher below tries the pattern at one starting position; scanFor
returns the leftmost success, which is the match the sources' unanchored
regexes produce. -/

/-- Try a position-anchored matcher at every suffix, leftmost first. -/
def scanFor {α : Type} (f : List Char → Option α) : List Char → Option α
  | [] => f []
  | l@(_ :: tl) =>
    match f l with
    | some a => some a
    | none => scanFor f tl

/-- Drop an exact literal from the front, or fail. -/
def dropLit : List Char → List Char → Option (List Char)
  | [], l => some l
  | _ :: _, [] => none
  | a :: as, b :: bs => if a = b then dropLit as bs else none

/-- Lazy dot-star capture up to the first closing bracket (the interior of
a lazy bracket group), empty capture allowed. -/
def lazyStar : List Char → Option (List Char)
  | [] => none
  | c :: cs =>
    if c = ']' then some []
    else (lazyStar cs).map (c :: ·)

/-- Lazy dot-plus capture up to the next closing bracket after at least one
captured character. -/
def lazyPlus : List Char → Option (List Char)
  | [] => none
  | c :: cs => (lazyStar cs).map (c :: ·)

/-! ## Data model (renderService.ts and elementLocator.ts interfaces) -/

/-- Coordinates of elementLocator.ts: x, y, width, height in device pixels. -/
structure Coordinates : Type where
  x : ℚ
  y : ℚ
  width : ℚ
  height : ℚ
deriving DecidableEq

/-- The value stored under a bounds key of a ModifierInfo: the sources allow
a boolean presence flag or a bracketed numeric string. -/
inductive BoundsVal : Type where
  | flag : Bool → BoundsVal
  | strval : String → BoundsVal
deriving DecidableEq

/-- ModifierInfo interface of elementLocator.ts. -/
structure ModifierInfo : Type where
  backgroundColor : Option String := none
  bounds : Option BoundsVal := none
  boundsData : Option Coordinates := none
  frame : Option Bool := none
deriving DecidableEq

/-- PositionInfo interface of elementLocator.ts; Number() conversions of its
number-or-string fields are modelled as the resulting rationals. -/
structure PositionInfo : Type where
  x : Option ℚ := none
  y : Option ℚ := none
  width : Option ℚ := none
  height : Option ℚ := none
deriving DecidableEq

/-- The open properties bag of a UINode.  The parsers only ever write the
instanceId and modifiers keys; position is the extra key getCoordinates
probes for. -/
structure Properties : Type where
  instanceId : Option String := none
  modifiers : Option ModifierInfo := none
  position : Option PositionInfo := none
deriving DecidableEq

/-- UINode interface of renderService.ts. -/
inductive UINode : Type where
  | mk (id : String) (type : String) (name : Option String) (pid : Option Nat)
       (frameNodeId : Option String) (frameNodeTag : Option String)
       (parentId : Option String) (properties : Properties)
       (children : List UINode)

def UINode.id : UINode → String
  | .mk i _ _ _ _ _ _ _ _ => i

def UINode.type : UINode → String
  | .mk _ t _ _ _ _ _ _ _ => t

def UINode.name : UINode → Option String
  | .mk _ _ n _ _ _ _ _ _ => n

def UINode.pid : UINode → Option Nat
  | .mk _ _ _ p _ _ _ _ _ => p

def UINode.frameNodeId : UINode → Option String
  | .mk _ _ _ _ f _ _ _ _ => f

def UINode.frameNodeTag : UINode → Option String
  | .mk _ _ _ _ _ f _ _ _ => f

def UINode.parentId : UINode → Option String
  | .mk _ _ _ _ _ _ p _ _ => p

def UINode.properties : UINode → Properties
  | .mk _ _ _ _ _ _ _ pr _ => pr

def UINode.children : UINode → List UINode
  | .mk _ _ _ _ _ _ _ _ cs => cs

/-- Replace the parentId field (node.parentId = parent.id in the sources). -/
def UINode.withParentId (n : UINode) (p : String) : UINode :=
  match n with
  | .mk i t nm pd f1 f2 _ pr cs => .mk i t nm pd f1 f2 (some p) pr cs

/-- Append one child (parent.children.push(node) in the sources). -/
def UINode.appendChild (n : UINode) (c : UINode) : UINode :=
  match n with
  | .mk i t nm pd f1 f2 par pr cs => .mk i t nm pd f1 f2 par pr (cs ++ [c])

/-- A JavaScript property value as seen by the strict-equality checks of
findByProperty and findByConditions.  Object values compare by reference,
so a caller-supplied object is never strictly equal to one stored in a
node; undef is the lookup result for an absent key. -/
inductive JSValue : Type where
  | undefVal : JSValue
  | str : String → JSValue
  | num : ℚ → JSValue
  | boolv : Bool → JSValue
  | modObj : ModifierInfo → JSValue
  | posObj : PositionInfo → JSValue

/-- Strict equality (triple equals) between a node property value and a
caller-supplied value.  Distinct object references are never equal. -/
def jsStrictEq : JSValue → JSValue → Bool
  | .undefVal, .undefVal => true
  | .str a, .str b => a == b
  | .num a, .num b => a == b
  | .boolv a, .boolv b => a == b
  | _, _ => false

/-- node.properties[key] for the keys the parsers can populate; an absent
key reads as undefined. -/
def Properties.lookup (p : Properties) (key : String) : JSValue :=
  if key = "instanceId" then
    match p.instanceId with
    | some s => .str s
    | none => .undefVal
  else if key = "modifiers" then
    match p.modifiers with
    | some m => .modObj m
    | none => .undefVal
  else if key = "position" then
    match p.position with
    | some ps => .posObj ps
    | none => .undefVal
  else .undefVal

/-- ElementMatch interface of elementLocator.ts. -/
structure ElementMatch : Type where
  node : UINode
  path : List String
  score : ℤ

/-- SearchConditions interface of elementLocator.ts. -/
structure SearchConditions : Type where
  text : Option String := none
  type : Option String := none
  properties : Option (List (String × JSValue)) := none

/-- Truthiness of an optional string condition (the empty string is falsy
in JavaScript, so it counts as an absent condition). -/
def jsTruthyOptStr : Option String → Bool
  | some s => !(s == "")
  | none => false

/-! ## RenderServiceParser (src/parsers/renderService.ts)

ElementLocator.parseUITree in src/parsers/elementLocator.ts is a verbatim
copy of the same parsing logic; it is identified with these definitions. -/

namespace RenderServiceParser

/-- Position-anchored attempt of the pid root-marker regex: a pipe, optional
whitespace, the literal characters of pid, a bracketed digit run. -/
def matchPidAt (l : List Char) : Option Nat :=
  match l with
  | '|' :: rest =>
    let r1 := rest.dropWhile isJsSpace
    match dropLit ['p', 'i', 'd', '['] r1 with
    | none => none
    | some r2 =>
      let ds := r2.takeWhile isDigitCh
      if ds.isEmpty then none
      else
        match r2.drop ds.length with
        | ']' :: _ => some (digitsToNat ds)
        | _ => none
  | _ => none

/-- Leftmost match of the pid root-marker regex over a whole line. -/
def findPid (l : List Char) : Option Nat :=
  scanFor matchPidAt l

/-- Position-anchored attempt of the node-head regex: a pipe, optional
whitespace, a word run, a bracketed digit run; captures type and id. -/
def matchTypeAt (l : List Char) : Option (List Char × List Char) :=
  match l with
  | '|' :: rest =>
    let r1 := rest.dropWhile isJsSpace
    let w := r1.takeWhile isWordCh
    if w.isEmpty then none
    else
      match r1.drop w.length with
      | '[' :: r2 =>
        let ds := r2.takeWhile isDigitCh
        if ds.isEmpty then none
        else
          match r2.drop ds.length with
          | ']' :: _ => some (w, ds)
          | _ => none
      | _ => none
  | _ => none

/-- Position-anchored capture of a bracketed digit run after a literal key. -/
def matchKeyDigitsAt (key : List Char) (l : List Char) : Option (List Char) :=
  match dropLit key l with
  | none => none
  | some r =>
    let ds := r.takeWhile isDigitCh
    if ds.isEmpty then none
    else
      match r.drop ds.length with
      | ']' :: _ => some ds
      | _ => none

/-- Position-anchored capture of a bracketed word run after a literal key. -/
def matchKeyWordAt (key : List Char) (l : List Char) : Option (List Char) :=
  match dropLit key l with
  | none => none
  | some r =>
    let w := r.takeWhile isWordCh
    if w.isEmpty then none
    else
      match r.drop w.length with
      | ']' :: _ => some w
      | _ => none

/-- Position-anchored capture of the name group: any nonempty run of
non-bracket characters inside brackets after the name key. -/
def matchNameAt (l : List Char) : Option (List Char) :=
  match dropLit ['n', 'a', 'm', 'e', '['] l with
  | none => none
  | some r =>
    let w := r.takeWhile (fun c => !(c = ']'))
    if w.isEmpty then none
    else
      match r.drop w.length with
      | ']' :: _ => some w
      | _ => none

/-- Position-anchored capture of the instanceId group: an optional minus
sign then a digit run, bracketed. -/
def matchInstanceIdAt (l : List Char) : Option (List Char) :=
  match dropLit ['i', 'n', 's', 't', 'a', 'n', 'c', 'e', 'I', 'd', '['] l with
  | none => none
  | some r =>
    let body := match r with
                | '-' :: r2 => ('-' :: r2.takeWhile isDigitCh, r2.drop (r2.takeWhile isDigitCh).length)
                | _ => (r.takeWhile isDigitCh, r.drop (r.takeWhile isDigitCh).length)
    if body.1 = ['-'] || body.1.isEmpty then none
    else
      match body.2 with
      | ']' :: _ => some body.1
      | _ => none

/-- Position-anchored lazy capture of the modifiers group interior. -/
def matchModifiersAt (l : List Char) : Option (List Char) :=
  match dropLit ['m', 'o', 'd', 'i', 'f', 'i', 'e', 'r', 's', '['] l with
  | none => none
  | some r => lazyStar r

/-- Position-anchored lazy capture of the BackgroundColor group interior. -/
def matchBackgroundColorAt (l : List Char) : Option (List Char) :=
  match dropLit ['B', 'a', 'c', 'k', 'g', 'r', 'o', 'u', 'n', 'd',
                 'C', 'o', 'l', 'o', 'r', '['] l with
  | none => none
  | some r => lazyPlus r

/-- countDepth of renderService.ts: count pipes from the start of the line,
skipping spaces, stopping at the first other character. -/
def countDepth : List Char → Nat
  | [] => 0
  | c :: cs =>
    if c = '|' then countDepth cs + 1
    else if c = ' ' then countDepth cs
    else 0

/-- One step of the parseModifiers comma-token loop. -/
def modifiersStep (m : ModifierInfo) (part : List Char) : ModifierInfo :=
  if part.isEmpty then m
  else
    match scanFor matchBackgroundColorAt part with
    | some v => { m with backgroundColor := some (String.mk v) }
    | none =>
      if part = ['B', 'o', 'u', 'n', 'd', 's'] then
        { m with bounds := some (.flag true) }
      else if part = ['F', 'r', 'a', 'm', 'e'] then
        { m with frame := some true }
      else m

/-- parseModifiers of renderService.ts: comma-split, trim, recognise the
BackgroundColor token and the Bounds and Frame presence flags. -/
def parseModifiers (modifiersStr : List Char) : ModifierInfo :=
  ((splitOnCh ',' modifiersStr).map trimChars).foldl modifiersStep {}

/-- parseNodeLine of renderService.ts. -/
def parseNodeLine (line : List Char) : Option UINode :=
  match scanFor matchTypeAt line with
  | none => none
  | some (ty, ident) =>
    some (.mk (String.mk ty ++ "-" ++ String.mk ident) (String.mk ty)
      ((scanFor matchNameAt line).map String.mk)
      none
      ((scanFor (matchKeyDigitsAt
        ['f', 'r', 'a', 'm', 'e', 'N', 'o', 'd', 'e', 'I', 'd', '[']) line).map String.mk)
      ((scanFor (matchKeyWordAt
        ['f', 'r', 'a', 'm', 'e', 'N', 'o', 'd', 'e', 'T', 'a', 'g', '[']) line).map String.mk)
      ((scanFor (matchKeyDigitsAt ['p', 'a', 'r', 'e', 'n', 't', '[']) line).map String.mk)
      { instanceId := (scanFor matchInstanceIdAt line).map String.mk
        modifiers := (scanFor matchModifiersAt line).map parseModifiers
        position := none }
      [])

/-- The root node created for a pid root-marker line. -/
def mkRoot (pid : Nat) : UINode :=
  .mk ("pid-" ++ toString pid) "ProcessRoot" none (some pid) none none none {} []

/-- Pop the ancestor stack k times; each pop attaches the popped node as
the last child of the node below it (the child order this produces is the
same as the sources' attach-at-push order). -/
def popN : Nat → List UINode → List UINode
  | 0, s => s
  | k + 1, s =>
    match s with
    | t :: p :: rest => popN k (p.appendChild t :: rest)
    | _ => s

/-- Collapse a whole stack to its bottom node with all children attached. -/
def collapseAll (s : List UINode) : Option UINode :=
  match popN (s.length - 1) s with
  | [r] => some r
  | _ => none

/-- Map.set semantics on the association-list forest: replace in place if
the key exists, else append. -/
def setAssoc (l : List (Nat × UINode)) (k : Nat) (v : UINode) : List (Nat × UINode) :=
  match l with
  | [] => [(k, v)]
  | (k0, v0) :: rest =>
    if k0 = k then (k, v) :: rest else (k0, v0) :: setAssoc rest k v

/-- Parser state: the finished forest entries, the open ancestor stack
(head is the top), and the pid the stack bottom belongs to (none while the
stack holds only orphan nodes seen before any root marker). -/
structure PState : Type where
  finished : List (Nat × UINode)
  stack : List UINode
  rootPid : Option Nat

/-- Write the collapsed current stack into the forest if it is rooted. -/
def flushState (st : PState) : List (Nat × UINode) :=
  match st.rootPid, collapseAll st.stack with
  | some pid, some r => setAssoc st.finished pid r
  | _, _ => st.finished

/-- One iteration of the line loop of parse. -/
def processLine (st : PState) (line : List Char) : PState :=
  if (trimChars line).isEmpty then st
  else
    match findPid line with
    | some pid => ⟨flushState st, [mkRoot pid], some pid⟩
    | none =>
      let d := countDepth line
      if d = 0 then st
      else
        match parseNodeLine line with
        | none => st
        | some n =>
          let s := popN (st.stack.length - d) st.stack
          match s with
          | [] => ⟨st.finished, [n], st.rootPid⟩
          | p :: rest => ⟨st.finished, n.withParentId p.id :: p :: rest, st.rootPid⟩

/-- parse of renderService.ts: the forest, one tree per pid root marker,
as an insertion-ordered map from pid to root. -/
def parse (output : String) : List (Nat × UINode) :=
  flushState ((splitLinesCh output.data).foldl processLine ⟨[], [], none⟩)

/-- getTreeByPid of renderService.ts. -/
def getTreeByPid (output : String) (pid : Nat) : Option UINode :=
  (parse output).lookup pid

end RenderServiceParser

/-! ## ElementLocator (src/parsers/elementLocator.ts) -/

namespace ElementLocator

/-- parseUITree of elementLocator.ts is a verbatim copy of the logic of
RenderServiceParser.parse, so it is identified with it. -/
def parseUITree (uiTree : String) : List (Nat × UINode) :=
  RenderServiceParser.parse uiTree

/-- getNodeLabel of elementLocator.ts. -/
def getNodeLabel (node : UINode) : String :=
  match node.name with
  | some nm => node.type ++ "(" ++ nm ++ ")"
  | none => node.type

/-- One row step of the Levenshtein dynamic program: walks the remaining
characters of the second string together with the previous row, carrying
the value just computed on the current row. -/
def levAux (c : Char) : List Char → List Nat → Nat → List Nat
  | [], _, _ => []
  | b :: bs, prev, cur =>
    match prev with
    | pDiag :: pRest =>
      let pj := pRest.headD 0
      let v := if c = b then pDiag else 1 + min pj (min cur pDiag)
      v :: levAux c bs pRest v
    | [] => []

/-- levenshteinDistance of elementLocator.ts: the classic full dynamic
program, computed row by row. -/
def levenshteinDistance (str1 str2 : String) : Nat :=
  let t := str2.data
  let final := str1.data.foldl
    (fun prev c => (prev.headD 0 + 1) :: levAux c t prev (prev.headD 0 + 1))
    (List.range (t.length + 1))
  final.getLastD 0

/-- calculateScore of elementLocator.ts: the tiered match-quality score. -/
def calculateScore (node : UINode) (text : String) : ℤ :=
  match node.name with
  | none => 0
  | some name =>
    let nodeName := jsToLower name
    let searchText := jsToLower text
    if nodeName == searchText then 100
    else if jsIncludes nodeName searchText || jsIncludes searchText nodeName then 85
    else if jsStartsWith nodeName searchText then 75
    else if jsEndsWith nodeName searchText then 70
    else
      let distance := levenshteinDistance nodeName searchText
      let maxLength := max nodeName.length searchText.length
      let similarity : ℚ := 1 - (distance : ℚ) / (maxLength : ℚ)
      if (3 / 5 : ℚ) ≤ similarity then jsRound (similarity * 60) else 0

/-- The name comparison of searchTextWithScore: case-insensitive equality
when exact, case-insensitive containment otherwise. -/
def jsMatched (nm text : String) (exactMatch : Bool) : Bool :=
  if exactMatch then jsToLower nm == jsToLower text
  else jsIncludes (jsToLower nm) (jsToLower text)

mutual

/-- searchTextWithScore of elementLocator.ts, with the shared results array
rendered as the returned list (the node's own match first, then the
matches of its children in order). -/
def searchTextWithScore : UINode → String → List String → Bool → List ElementMatch
  | .mk i t nm pd f1 f2 par pr cs, text, path, exactMatch =>
    let node : UINode := .mk i t nm pd f1 f2 par pr cs
    let currentPath := path ++ [getNodeLabel node]
    let own : List ElementMatch :=
      match nm with
      | none => []
      | some s =>
        if jsMatched s text exactMatch then
          [⟨node, currentPath, calculateScore node text⟩]
        else []
    own ++ searchTextListWithScore cs text currentPath exactMatch

/-- The recursion of searchTextWithScore over a child list. -/
def searchTextListWithScore : List UINode → String → List String → Bool → List ElementMatch
  | [], _, _, _ => []
  | c :: cs, text, path, exactMatch =>
    searchTextWithScore c text path exactMatch ++
      searchTextListWithScore cs text path exactMatch

end

/-- findByText of elementLocator.ts: depth-first collection, no sorting. -/
def findByText (rootNode : UINode) (text : String) (exactMatch : Bool) :
    List ElementMatch :=
  searchTextWithScore rootNode text [] exactMatch

mutual

/-- searchType of elementLocator.ts: exact type equality, fixed score 80. -/
def searchType : UINode → String → List String → List ElementMatch
  | .mk i t nm pd f1 f2 par pr cs, type, path =>
    let node : UINode := .mk i t nm pd f1 f2 par pr cs
    let currentPath := path ++ [getNodeLabel node]
    (if t == type then [⟨node, currentPath, 80⟩] else []) ++
      searchTypeList cs type currentPath

/-- The recursion of searchType over a child list. -/
def searchTypeList : List UINode → String → List String → List ElementMatch
  | [], _, _ => []
  | c :: cs, type, path => searchType c type path ++ searchTypeList cs type path

end

/-- findByType of elementLocator.ts. -/
def findByType (rootNode : UINode) (type : String) : List ElementMatch :=
  searchType rootNode type []

mutual

/-- searchProperty of elementLocator.ts: strict equality on one property,
fixed score 100. -/
def searchProperty : UINode → String → JSValue → List String → List ElementMatch
  | .mk i t nm pd f1 f2 par pr cs, propertyName, propertyValue, path =>
    let node : UINode := .mk i t nm pd f1 f2 par pr cs
    let currentPath := path ++ [getNodeLabel node]
    (if jsStrictEq (pr.lookup propertyName) propertyValue then
        [⟨node, currentPath, 100⟩]
      else []) ++
      searchPropertyList cs propertyName propertyValue currentPath

/-- The recursion of searchProperty over a child list. -/
def searchPropertyList : List UINode → String → JSValue → List String → List ElementMatch
  | [], _, _, _ => []
  | c :: cs, propertyName, propertyValue, path =>
    searchProperty c propertyName propertyValue path ++
      searchPropertyList cs propertyName propertyValue path

end

/-- findByProperty of elementLocator.ts. -/
def findByProperty (rootNode : UINode) (propertyName : String)
    (propertyValue : JSValue) : List ElementMatch :=
  searchProperty rootNode propertyName propertyValue []

/-- totalConditions of searchWithConditions: a present (truthy) text counts
one, a present type counts one, and each key of the properties object
counts one. -/
def condTotal (c : SearchConditions) : Nat :=
  (if jsTruthyOptStr c.text then 1 else 0) +
    (if jsTruthyOptStr c.type then 1 else 0) +
    (match c.properties with
     | some l => l.length
     | none => 0)

/-- The text-condition step of the accumulation loop of
searchWithConditions: starting from score zero and count zero, add 30 and
count one when a truthy text condition matches the node name. -/
def condTextEval (node : UINode) (c : SearchConditions) : ℤ × Nat :=
  if jsTruthyOptStr c.text then
    match c.text, node.name with
    | some t, some nm =>
      if jsIncludes (jsToLower nm) (jsToLower t) then (30, 1) else (0, 0)
    | _, _ => (0, 0)
  else (0, 0)

/-- The type-condition step: add 20 and count one when a truthy type
condition equals the node type. -/
def condTypeEval (node : UINode) (c : SearchConditions) (s1 : ℤ × Nat) : ℤ × Nat :=
  if jsTruthyOptStr c.type then
    match c.type with
    | some ty => if node.type == ty then (s1.1 + 20, s1.2 + 1) else s1
    | none => s1
  else s1

/-- The properties step: 25 and count one per strictly-equal property. -/
def condPropsEval (node : UINode) (c : SearchConditions) (s2 : ℤ × Nat) : ℤ × Nat :=
  match c.properties with
  | some l =>
    l.foldl
      (fun acc kv =>
        if jsStrictEq (node.properties.lookup kv.1) kv.2 then
          (acc.1 + 25, acc.2 + 1)
        else acc)
      s2
  | none => s2

/-- The per-node accumulation loop of searchWithConditions, producing the
raw additive score and the matched-condition count in source order: text,
then type, then each property. -/
def nodeCondEval (node : UINode) (c : SearchConditions) : ℤ × Nat :=
  condPropsEval node c (condTypeEval node c (condTextEval node c))

/-- The score transformation applied before pushing a conditions match:
round of rawScore over total times matchCount over total times 100, then
clamped to at most 100. -/
def condScore (raw : ℤ) (mc : Nat) (total : Nat) : ℤ :=
  min 100 (jsRound ((raw : ℚ) / (total : ℚ) * ((mc : ℚ) / (total : ℚ)) * 100))

mutual

/-- searchWithConditions of elementLocator.ts. -/
def searchWithConditions : UINode → SearchConditions → List String → List ElementMatch
  | .mk i t nm pd f1 f2 par pr cs, c, path =>
    let node : UINode := .mk i t nm pd f1 f2 par pr cs
    let currentPath := path ++ [getNodeLabel node]
    let ev := nodeCondEval node c
    (if 0 < ev.2 then [⟨node, currentPath, condScore ev.1 ev.2 (condTotal c)⟩]
      else []) ++
      searchWithConditionsList cs c currentPath

/-- The recursion of searchWithConditions over a child list. -/
def searchWithConditionsList : List UINode → SearchConditions → List String → List ElementMatch
  | [], _, _ => []
  | x :: xs, c, path =>
    searchWithConditions x c path ++ searchWithConditionsList xs c path

end

/-- Stable insertion of a match into a score-descending list: the inserted
element goes before the first element whose score is not larger, which is
exactly where the stable Array.prototype.sort comparator of the sources
puts an element relative to the later ones. -/
def insertDesc (m : ElementMatch) : List ElementMatch → List ElementMatch
  | [] => [m]
  | x :: xs => if m.score < x.score then x :: insertDesc m xs else m :: x :: xs

/-- The stable descending-by-score sort of results.sort in findByConditions. -/
def sortDesc : List ElementMatch → List ElementMatch
  | [] => []
  | x :: xs => insertDesc x (sortDesc xs)

/-- findByConditions of elementLocator.ts: collect depth-first, then sort
descending by score (stably). -/
def findByConditions (rootNode : UINode) (conditions : SearchConditions) :
    List ElementMatch :=
  sortDesc (searchWithConditions rootNode conditions [])

/-- Position-anchored attempt of the bounds-string regex of getCoordinates:
four bracketed comma-separated digit runs. -/
def matchBoundsStrAt (l : List Char) : Option (Nat × Nat × Nat × Nat) :=
  match l with
  | '[' :: r0 =>
    let d1 := r0.takeWhile isDigitCh
    if d1.isEmpty then none
    else
      match r0.drop d1.length with
      | ',' :: r1 =>
        let r1s := r1.dropWhile isJsSpace
        let d2 := r1s.takeWhile isDigitCh
        if d2.isEmpty then none
        else
          match r1s.drop d2.length with
          | ',' :: r2 =>
            let r2s := r2.dropWhile isJsSpace
            let d3 := r2s.takeWhile isDigitCh
            if d3.isEmpty then none
            else
              match r2s.drop d3.length with
              | ',' :: r3 =>
                let r3s := r3.dropWhile isJsSpace
                let d4 := r3s.takeWhile isDigitCh
                if d4.isEmpty then none
                else
                  match r3s.drop d4.length with
                  | ']' :: _ =>
                    some (digitsToNat d1, digitsToNat d2, digitsToNat d3, digitsToNat d4)
                  | _ => none
              | _ => none
          | _ => none
      | _ => none
  | _ => none

/-- The position-property fallback of getCoordinates. -/
def getCoordinatesPos (node : UINode) : Option Coordinates :=
  match node.properties.position with
  | some pos =>
    match pos.x, pos.y with
    | some px, some py =>
      some ⟨px, py, pos.width.getD 0, pos.height.getD 0⟩
    | _, _ => none
  | none => none

/-- getCoordinates of elementLocator.ts. -/
def getCoordinates (node : UINode) : Option Coordinates :=
  match node.properties.modifiers with
  | some modifiers =>
    match modifiers.boundsData with
    | some bd => some bd
    | none =>
      match modifiers.bounds with
      | some (.strval s) =>
        match scanFor matchBoundsStrAt s.data with
        | some (a, b, w, h) => some ⟨(a : ℚ), (b : ℚ), (w : ℚ), (h : ℚ)⟩
        | none => getCoordinatesPos node
      | _ => getCoordinatesPos node
  | none => getCoordinatesPos node

end ElementLocator

/-! ## UIController (src/automation/controller.ts) -/

namespace UIController

/-- DEFAULT_POLL_INTERVAL of controller.ts, in milliseconds. -/
def DEFAULT_POLL_INTERVAL : Nat := 500

/-- DEFAULT_WAIT_TIMEOUT of controller.ts, in milliseconds. -/
def DEFAULT_WAIT_TIMEOUT : Nat := 10000

/-- MAX_RETRY_COUNT of controller.ts. -/
def MAX_RETRY_COUNT : Nat := 3

/-- extractCenterCoordinates of controller.ts: the centre of the rectangle
getCoordinates derives, or none. -/
def extractCenterCoordinates (node : UINode) : Option (ℚ × ℚ) :=
  match ElementLocator.getCoordinates node with
  | none => none
  | some coords => some (coords.x + coords.width / 2, coords.y + coords.height / 2)

/-- What one poll iteration of waitForElement observes: the combined
getUiTree-plus-findElementsByText step either raises a transport error,
finds no element, or finds an element. -/
inductive PollOutcome : Type where
  | err : PollOutcome
  | notFound : PollOutcome
  | found : PollOutcome
deriving DecidableEq

/-- The result of a waitForElement run: an element, the null timeout
result, a raised error after exhausted retries, or exhausted modelling
fuel (which a sufficient fuel argument makes unreachable). -/
inductive WaitResult : Type where
  | elem : WaitResult
  | timedOut : WaitResult
  | raised : WaitResult
  | fuelOut : WaitResult
deriving DecidableEq

/-- A poll trace: for each iteration index, the wall-clock milliseconds the
poll body consumed and its outcome. -/
def PollTrace : Type := Nat → Nat × PollOutcome

/-- The while loop of waitForElement.  The elapsed wall clock is checked at
the top of each iteration; a poll body takes its trace duration and every
iteration then sleeps the fixed 500 ms interval; the retry counter grows by
one on every error and is never reset, and the loop raises as soon as it
reaches MAX_RETRY_COUNT.  Fuel only bounds the recursion depth. -/
def waitAux (timeout : Nat) (poll : PollTrace) :
    Nat → Nat → Nat → Nat → WaitResult
  | fuel, i, now, retry =>
    if timeout ≤ now then .timedOut
    else
      match fuel with
      | 0 => .fuelOut
      | f + 1 =>
        match (poll i).2 with
        | .found => .elem
        | .notFound =>
          waitAux timeout poll f (i + 1) (now + (poll i).1 + DEFAULT_POLL_INTERVAL) retry
        | .err =>
          if MAX_RETRY_COUNT ≤ retry + 1 then .raised
          else
            waitAux timeout poll f (i + 1) (now + (poll i).1 + DEFAULT_POLL_INTERVAL)
              (retry + 1)

/-- waitForElement of controller.ts over a poll trace.  The initial fuel of
timeout plus one is enough because every iteration advances the clock by at
least the 500 ms sleep. -/
def waitForElement (timeout : Nat) (poll : PollTrace) : WaitResult :=
  waitAux timeout poll (timeout + 1) 0 0 0

/-- Number of error outcomes among the first n poll iterations. -/
def errCount (poll : PollTrace) (n : Nat) : Nat :=
  (List.range n).countP (fun j => (poll j).2 == .err)

/-- Wall-clock instant at which iteration k starts (poll durations plus the
fixed sleeps of all earlier iterations). -/
def pollStart (poll : PollTrace) : Nat → Nat
  | 0 => 0
  | k + 1 => pollStart poll k + (poll k).1 + DEFAULT_POLL_INTERVAL

end UIController

/-! ## Validator and HDC (src/utils/hdc.ts) -/

namespace Validator

/-- MAX_COORDINATE_VALUE of hdc.ts. -/
def MAX_COORDINATE_VALUE : ℚ := 100000

/-- validateCoordinate of hdc.ts: reject NaN and values outside zero to the
platform maximum. -/
def validateCoordinate (value : JSNum) : Except String Unit :=
  match value with
  | .nan => .error "must be a valid number"
  | .fin x =>
    if x < 0 || MAX_COORDINATE_VALUE < x then .error "outside the valid range"
    else .ok ()

/-- The key argument of pressKey as JavaScript sees it: a string value or a
value of another runtime type. -/
inductive JSStrArg : Type where
  | str : String → JSStrArg
  | notStr : JSStrArg
deriving DecidableEq

/-- validateKeyName of hdc.ts: reject a falsy or non-string key. -/
def validateKeyName (key : JSStrArg) : Except String Unit :=
  match key with
  | .notStr => .error "key name must be a nonempty string"
  | .str s => if s = "" then .error "key name must be a nonempty string" else .ok ()

end Validator

namespace HDC

/-- A device-input shell command, abstracted from its uitest command line. -/
inductive DeviceCmd : Type where
  | click : ℤ → ℤ → DeviceCmd
  | swipeCmd : ℤ → ℤ → ℤ → ℤ → JSNum → DeviceCmd
  | keyEvent : String → DeviceCmd
deriving DecidableEq

/-- The observable outcome of an HDC method: the device commands it issued,
and either the device's raw output or the raised error.  An error with an
empty command list is a validation failure raised before any device call. -/
structure RunResult : Type where
  cmds : List DeviceCmd
  outcome : Except String String

/-- Math.round applied to a validated finite coordinate. -/
def jsRoundNum : JSNum → ℤ
  | .nan => 0
  | .fin x => jsRound x

/-- tap of hdc.ts: validate both coordinates, then issue one click command.
The shell oracle supplies the device's reply. -/
def tap (shellOut : DeviceCmd → String) (x y : JSNum) : RunResult :=
  match Validator.validateCoordinate x with
  | .error e => ⟨[], .error e⟩
  | .ok _ =>
    match Validator.validateCoordinate y with
    | .error e => ⟨[], .error e⟩
    | .ok _ =>
      let cmd := DeviceCmd.click (jsRoundNum x) (jsRoundNum y)
      ⟨[cmd], .ok (shellOut cmd)⟩

/-- The duration-to-velocity mapping of swipe in hdc.ts: one hundred times
the duration, rounded, clamped into the platform velocity range. -/
def velocityOfDuration (duration : ℚ) : ℤ :=
  max 200 (min 40000 (jsRound (duration * 100)))

/-- Velocity as swipe computes it on a JavaScript number (NaN propagates). -/
def velocityNum : JSNum → JSNum
  | .nan => .nan
  | .fin d => .fin ((velocityOfDuration d : ℤ) : ℚ)

/-- The duration test of swipe: only a negative finite number is rejected
(NaN compares false against zero and passes). -/
def durationInvalid : JSNum → Bool
  | .nan => false
  | .fin d => d < 0

/-- swipe of hdc.ts: validate the four coordinates and the duration, then
issue one swipe command carrying the mapped velocity. -/
def swipe (shellOut : DeviceCmd → String) (x1 y1 x2 y2 duration : JSNum) :
    RunResult :=
  match Validator.validateCoordinate x1 with
  | .error e => ⟨[], .error e⟩
  | .ok _ =>
  match Validator.validateCoordinate y1 with
  | .error e => ⟨[], .error e⟩
  | .ok _ =>
  match Validator.validateCoordinate x2 with
  | .error e => ⟨[], .error e⟩
  | .ok _ =>
  match Validator.validateCoordinate y2 with
  | .error e => ⟨[], .error e⟩
  | .ok _ =>
  if durationInvalid duration then ⟨[], .error "duration must be nonnegative"⟩
  else
    let cmd := DeviceCmd.swipeCmd (jsRoundNum x1) (jsRoundNum y1)
      (jsRoundNum x2) (jsRoundNum y2) (velocityNum duration)
    ⟨[cmd], .ok (shellOut cmd)⟩

/-- pressKey of hdc.ts: validate the key name, then issue one key event. -/
def pressKey (shellOut : DeviceCmd → String) (key : Validator.JSStrArg) :
    RunResult :=
  match Validator.validateKeyName key with
  | .error e => ⟨[], .error e⟩
  | .ok _ =>
    match key with
    | .str s => ⟨[DeviceCmd.keyEvent s], .ok (shellOut (DeviceCmd.keyEvent s))⟩
    | .notStr => ⟨[], .error "unreachable"⟩

/-- The method names the HDC class of hdc.ts defines. -/
def hdcMethods : List String :=
  ["shell", "hidumper", "listWindows", "getScreenResolution",
   "convertToScreenCoordinates", "getUiTree", "listAbilities", "screenshot",
   "tap", "swipe", "pressKey", "startApp", "stopApp", "getAppStatus",
   "restartApp"]

end HDC

/-! ## The MCP tool dispatch of src/index.ts, case of the text tool -/

namespace McpServer

/-- A tool response: the isError flag, the response text, and the device
commands the handler issued while producing it. -/
structure ToolResponse : Type where
  isError : Bool
  text : String
  cmds : List HDC.DeviceCmd

/-- The text tool handler of index.ts.  After the missing-argument check
it evaluates hdc.inputText(text); the HDC class defines no inputText
method, so the lookup yields undefined, the call raises a TypeError before
any device command, and the surrounding catch-all converts the exception
into a fixed error response. -/
def textToolHandler (args : Option String) : ToolResponse :=
  match args with
  | none => ⟨true, "missing required parameter text", []⟩
  | some _ =>
    if HDC.hdcMethods.contains "inputText" then
      ⟨false, "unreachable: HDC has no inputText method", []⟩
    else
      ⟨true, "hdc.inputText is not a function", []⟩

end McpServer

/-! ## Spec-side comparison definitions and Boolean helpers -/

/-- The tiered score exactly as the specification words it (section 4.2):
exact match 100; mutual substring containment 85; prefix match 75; suffix
match 70; otherwise the normalized edit-distance similarity, scoring
round of similarity times 60 when the similarity is at least sixty
percent and excluding the node (score 0) below that. -/
def specTieredScore (name : Option String) (query : String) : ℤ :=
  match name with
  | none => 0
  | some nm =>
    let a := jsToLower nm
    let b := jsToLower query
    if a == b then 100
    else if jsIncludes a b || jsIncludes b a then 85
    else if jsStartsWith a b then 75
    else if jsEndsWith a b then 70
    else
      let distance := ElementLocator.levenshteinDistance a b
      let maxLength := max a.length b.length
      let similarity : ℚ := 1 - (distance : ℚ) / (maxLength : ℚ)
      if (3 / 5 : ℚ) ≤ similarity then jsRound (similarity * 60) else 0

/-- Whether the text sub-condition of findByConditions is satisfied at a
node, as the specification describes it. -/
def specTextBit (node : UINode) (c : SearchConditions) : Bool :=
  jsTruthyOptStr c.text &&
    (match c.text, node.name with
     | some t, some nm => jsIncludes (jsToLower nm) (jsToLower t)
     | _, _ => false)

/-- Whether the type sub-condition of findByConditions is satisfied. -/
def specTypeBit (node : UINode) (c : SearchConditions) : Bool :=
  jsTruthyOptStr c.type &&
    (match c.type with
     | some ty => node.type == ty
     | none => false)

/-- Number of satisfied property sub-conditions of findByConditions. -/
def specPropCount (node : UINode) (c : SearchConditions) : Nat :=
  match c.properties with
  | some l => l.countP (fun kv => jsStrictEq (node.properties.lookup kv.1) kv.2)
  | none => 0

/-- The raw weighted score of the specification: 30 for a satisfied text
condition, 20 for type, 25 for each satisfied property. -/
def specRawScore (node : UINode) (c : SearchConditions) : ℤ :=
  (if specTextBit node c then 30 else 0) +
    (if specTypeBit node c then 20 else 0) + 25 * (specPropCount node c : ℤ)

/-- The matched sub-condition count of the specification. -/
def specMatchedCount (node : UINode) (c : SearchConditions) : Nat :=
  (if specTextBit node c then 1 else 0) +
    (if specTypeBit node c then 1 else 0) + specPropCount node c

/-- Whether a match list is sorted descending by score. -/
def scoresSortedDesc : List ElementMatch → Bool
  | [] => true
  | [_] => true
  | a :: b :: t => (b.score ≤ a.score : Bool) && scoresSortedDesc (b :: t)

mutual

/-- A predicate holds on a node and hereditarily on all its descendants. -/
def allNodes (p : UINode → Bool) : UINode → Bool
  | .mk i t nm pd f1 f2 par pr cs =>
    p (.mk i t nm pd f1 f2 par pr cs) && allNodesList p cs

/-- The recursion of allNodes over a child list. -/
def allNodesList (p : UINode → Bool) : List UINode → Bool
  | [] => true
  | c :: cs => allNodes p c && allNodesList p cs

end

/-- No coordinates are derivable from a node: getCoordinates yields none
and hence the smart-tap centre extraction yields none. -/
def coordFree (n : UINode) : Bool :=
  (ElementLocator.getCoordinates n).isNone &&
    (UIController.extractCenterCoordinates n).isNone

/-- A properties bag shaped the way the parser emits bags: no position, no
structured boundsData, and a bounds entry that is at most the boolean
presence flag (never a string). -/
def parserShapedProps (p : Properties) : Bool :=
  p.position.isNone &&
    (match p.modifiers with
     | none => true
     | some m =>
       m.boundsData.isNone &&
         (match m.bounds with
          | some (.strval _) => false
          | _ => true))

/-- A node is parser-shaped hereditarily: its own properties bag and every
descendant's bag has the shape the parsers emit. -/
def parserGood : UINode → Bool :=
  allNodes (fun n => parserShapedProps n.properties)

/-- An invalid coordinate argument in the sense of validateCoordinate:
NaN, negative, or above the platform maximum. -/
def coordInvalid : JSNum → Bool
  | .nan => true
  | .fin x => x < 0 || Validator.MAX_COORDINATE_VALUE < x

/-! ## Concrete fixtures for the claims -/

/-- The dump string of the specification scenario. -/
def c1Dump : String := "| pid[10]\n| | Canvas[1]\n| | | Text[2] name[OK]"

/-- The Text leaf the scenario dump parses to. -/
def c1TextNode : UINode :=
  .mk "Text-2" "Text" (some "OK") none none none (some "Canvas-1") {} []

/-- The Canvas node the scenario dump parses to. -/
def c1CanvasNode : UINode :=
  .mk "Canvas-1" "Canvas" none none none none (some "pid-10") {} [c1TextNode]

/-- The process root the scenario dump parses to. -/
def c1Root : UINode :=
  .mk "pid-10" "ProcessRoot" none (some 10) none none none {} [c1CanvasNode]

/-- A leaf node with a given type and name, for constructed test trees. -/
def mkNamedLeaf (id : String) (type : String) (name : Option String) : UINode :=
  .mk id type name none none none none {} []

/-- Tree with children named Login, LoginButton and LogIn2, in that order. -/
def c2Tree : UINode :=
  .mk "r" "ProcessRoot" none none none none none {}
    [mkNamedLeaf "a" "Text" (some "Login"), mkNamedLeaf "b" "Text" (some "LoginButton"),
     mkNamedLeaf "c" "Text" (some "LogIn2")]

/-- Tree whose depth-first order puts an 85-scoring name before a
100-scoring one. -/
def c3Tree : UINode :=
  .mk "r" "ProcessRoot" none none none none none {}
    [mkNamedLeaf "a" "Text" (some "LoginButton"), mkNamedLeaf "b" "Text" (some "Login")]

/-- Tree with one Button matching only the type condition and one Button
matching both the type and the text condition. -/
def c4Tree : UINode :=
  .mk "r" "ProcessRoot" none none none none none {}
    [mkNamedLeaf "a" "Button" (some "Cancel"), mkNamedLeaf "b" "Button" (some "OK")]

/-- The condition set of the specification example: type Button, text OK. -/
def c4Conds : SearchConditions := { text := some "OK", type := some "Button" }

/-- A poll trace with errors only at iterations 0, 2 and 4 (never two in a
row), all other polls finding nothing. -/
def c7Poll : UIController.PollTrace :=
  fun i => (0, if i = 0 ∨ i = 2 ∨ i = 4 then .err else .notFound)

/-- A dump with node lines but no pid root-marker line. -/
def c10OrphanDump : String := "| RootNode[9]\n| | CanvasNode[8]"

/-- A dump whose first node line precedes the first root marker. -/
def c10MixedDump : String := "| A[1]\n| pid[7]\n| | B[2]"

/-- The lone tree c10MixedDump parses to: the pre-marker A node is dropped. -/
def c10Tree : UINode :=
  .mk "pid-7" "ProcessRoot" none (some 7) none none none {}
    [.mk "B-2" "B" none none none none (some "pid-7") {} []]

/-! ## Helper lemmas -/

/-- Strong induction over the nested UINode tree: to prove a property of
every node it is enough to prove it of a node given it for all children. -/
theorem UINode.strong_induction {P : UINode → Prop}
    (h : ∀ n : UINode, (∀ c, c ∈ n.children → P c) → P n) : ∀ n, P n := by
  have key : ∀ k (n : UINode), sizeOf n ≤ k → P n := by
    intro k
    induction k with
    | zero =>
      intro n hn
      cases n with
      | mk i t nm pd f1 f2 par pr cs => simp at hn
    | succ k ih =>
      intro n hn
      apply h
      intro c hc
      apply ih
      have h1 : sizeOf c < sizeOf n.children := List.sizeOf_lt_of_mem hc
      have h2 : sizeOf n.children < sizeOf n := by
        cases n with
        | mk i t nm pd f1 f2 par pr cs => simp [UINode.children]
      omega
  intro n
  exact key (sizeOf n) n le_rfl

/-- Membership in the child-list text search factors through one child. -/
theorem mem_searchTextListWithScore :
    ∀ (ns : List UINode) (text : String) (path : List String) (em : Bool)
      (m : ElementMatch),
      m ∈ ElementLocator.searchTextListWithScore ns text path em →
      ∃ c, c ∈ ns ∧ m ∈ ElementLocator.searchTextWithScore c text path em := by
  intro ns
  induction ns with
  | nil =>
    intro text path em m hm
    simp [ElementLocator.searchTextListWithScore] at hm
  | cons c cs ih =>
    intro text path em m hm
    rw [ElementLocator.searchTextListWithScore] at hm
    rcases List.mem_append.mp hm with h | h
    · exact ⟨c, by simp, h⟩
    · obtain ⟨d, hd, hmd⟩ := ih text path em m h
      exact ⟨d, by simp [hd], hmd⟩

/-- Every match the text search returns carries the calculateScore value of
its own node against the query. -/
theorem searchTextWithScore_score_eq (text : String) :
    ∀ (n : UINode) (path : List String) (em : Bool) (m : ElementMatch),
      m ∈ ElementLocator.searchTextWithScore n text path em →
      m.score = ElementLocator.calculateScore m.node text := by
  intro n
  induction n using UINode.strong_induction with
  | _ n ih =>
    intro path em m hm
    cases n with
    | mk i t nm pd f1 f2 par pr cs =>
      simp only [UINode.children] at ih
      rw [ ElementLocator.searchTextWithScore.eq_def] at hm
      rcases List.mem_append.mp hm with h | h
      · cases nm with
        | none => simp at h
        | some s =>
          simp only at h
          by_cases hj : ElementLocator.jsMatched s text em
          · simp [hj] at h
            subst h
            rfl
          · simp [hj] at h
      · obtain ⟨c, hc, hmc⟩ := mem_searchTextListWithScore cs text _ em m h
        exact ih c hc _ em m hmc

/-- calculateScore is exactly the tiered function the specification
describes, applied to the node's optional name. -/
theorem calculateScore_eq_specTieredScore (n : UINode) (text : String) :
    ElementLocator.calculateScore n text = specTieredScore n.name text := by
  cases hn : n.name with
  | none => simp [ElementLocator.calculateScore, specTieredScore, hn]
  | some s => simp [ElementLocator.calculateScore, specTieredScore, hn]

/-- Membership in the child-list type search factors through one child. -/
theorem mem_searchTypeList :
    ∀ (ns : List UINode) (ty : String) (path : List String) (m : ElementMatch),
      m ∈ ElementLocator.searchTypeList ns ty path →
      ∃ c, c ∈ ns ∧ m ∈ ElementLocator.searchType c ty path := by
  intro ns
  induction ns with
  | nil =>
    intro ty path m hm
    simp [ElementLocator.searchTypeList] at hm
  | cons c cs ih =>
    intro ty path m hm
    rw [ElementLocator.searchTypeList] at hm
    rcases List.mem_append.mp hm with h | h
    · exact ⟨c, by simp, h⟩
    · obtain ⟨d, hd, hmd⟩ := ih ty path m h
      exact ⟨d, by simp [hd], hmd⟩

/-- Every match of the type search scores the fixed 80. -/
theorem searchType_score_eq (ty : String) :
    ∀ (n : UINode) (path : List String) (m : ElementMatch),
      m ∈ ElementLocator.searchType n ty path → m.score = 80 := by
  intro n
  induction n using UINode.strong_induction with
  | _ n ih =>
    intro path m hm
    cases n with
    | mk i t nm pd f1 f2 par pr cs =>
      simp only [UINode.children] at ih
      rw [ ElementLocator.searchType.eq_def] at hm
      rcases List.mem_append.mp hm with h | h
      · by_cases ht : (t == ty : Bool)
        · simp [ht] at h
          subst h
          rfl
        · simp [ht] at h
      · obtain ⟨c, hc, hmc⟩ := mem_searchTypeList cs ty _ m h
        exact ih c hc _ m hmc

/-- Membership in the child-list property search factors through a child. -/
theorem mem_searchPropertyList :
    ∀ (ns : List UINode) (k : String) (v : JSValue) (path : List String)
      (m : ElementMatch),
      m ∈ ElementLocator.searchPropertyList ns k v path →
      ∃ c, c ∈ ns ∧ m ∈ ElementLocator.searchProperty c k v path := by
  intro ns
  induction ns with
  | nil =>
    intro k v path m hm
    simp [ElementLocator.searchPropertyList] at hm
  | cons c cs ih =>
    intro k v path m hm
    rw [ElementLocator.searchPropertyList] at hm
    rcases List.mem_append.mp hm with h | h
    · exact ⟨c, by simp, h⟩
    · obtain ⟨d, hd, hmd⟩ := ih k v path m h
      exact ⟨d, by simp [hd], hmd⟩

/-- Every match of the property search scores the fixed 100. -/
theorem searchProperty_score_eq (k : String) (v : JSValue) :
    ∀ (n : UINode) (path : List String) (m : ElementMatch),
      m ∈ ElementLocator.searchProperty n k v path → m.score = 100 := by
  intro n
  induction n using UINode.strong_induction with
  | _ n ih =>
    intro path m hm
    cases n with
    | mk i t nm pd f1 f2 par pr cs =>
      simp only [UINode.children] at ih
      rw [ ElementLocator.searchProperty.eq_def] at hm
      rcases List.mem_append.mp hm with h | h
      · by_cases hp : jsStrictEq (pr.lookup k) v
        · simp [hp] at h
          subst h
          rfl
        · simp [hp] at h
      · obtain ⟨c, hc, hmc⟩ := mem_searchPropertyList cs k v _ m h
        exact ih c hc _ m hmc

/-- insertDesc preserves a pointwise Boolean predicate. -/
theorem insertDesc_all (p : ElementMatch → Bool) (m : ElementMatch) :
    ∀ l : List ElementMatch,
      (ElementLocator.insertDesc m l).all p = (p m && l.all p) := by
  intro l
  induction l with
  | nil => simp [ElementLocator.insertDesc]
  | cons x xs ih =>
    by_cases hs : m.score < x.score
    · simp only [ElementLocator.insertDesc, if_pos hs, List.all_cons, ih]
      cases p x <;> cases p m <;> simp
    · simp [ElementLocator.insertDesc, if_neg hs, List.all_cons]

/-- sortDesc preserves a pointwise Boolean predicate. -/
theorem sortDesc_all (p : ElementMatch → Bool) :
    ∀ l : List ElementMatch, (ElementLocator.sortDesc l).all p = l.all p := by
  intro l
  induction l with
  | nil => rfl
  | cons x xs ih => simp [ElementLocator.sortDesc, insertDesc_all, ih]

/-- The head of an insertDesc result scores no more than the inserted
element or the previous head. -/
theorem insertDesc_head_score (m : ElementMatch) :
    ∀ (l : List ElementMatch) (y : ElementMatch) (ys : List ElementMatch),
      ElementLocator.insertDesc m l = y :: ys →
      y = m ∨ ∃ x xs, l = x :: xs ∧ y = x := by
  intro l y ys h
  cases l with
  | nil =>
    simp [ElementLocator.insertDesc] at h
    exact Or.inl h.1.symm
  | cons x xs =>
    by_cases hs : m.score < x.score
    · simp only [ElementLocator.insertDesc, if_pos hs] at h
      exact Or.inr ⟨x, xs, rfl, (List.cons_eq_cons.mp h).1.symm⟩
    · simp only [ElementLocator.insertDesc, if_neg hs] at h
      exact Or.inl (List.cons_eq_cons.mp h).1.symm

/-- insertDesc keeps a descending-by-score list descending. -/
theorem insertDesc_sorted (m : ElementMatch) :
    ∀ l : List ElementMatch, scoresSortedDesc l = true →
      scoresSortedDesc (ElementLocator.insertDesc m l) = true := by
  intro l
  induction l with
  | nil => intro _; rfl
  | cons x xs ih =>
    intro hl
    have hxs : scoresSortedDesc xs = true := by
      cases xs with
      | nil => rfl
      | cons z zs =>
        have := hl
        simp only [scoresSortedDesc, Bool.and_eq_true] at this
        exact this.2
    by_cases hs : m.score < x.score
    · simp only [ElementLocator.insertDesc, if_pos hs]
      have hrec := ih hxs
      cases hrec2 : ElementLocator.insertDesc m xs with
      | nil => simp [scoresSortedDesc]
      | cons y ys =>
        rw [hrec2] at hrec
        have hy : y.score ≤ x.score := by
          rcases insertDesc_head_score m xs y ys hrec2 with h | ⟨z, zs, hzz, hyz⟩
          · subst h
            exact le_of_lt hs
          · subst hyz
            rw [hzz] at hl
            simp only [scoresSortedDesc, Bool.and_eq_true, decide_eq_true_eq] at hl
            exact hl.1
        simp only [scoresSortedDesc, Bool.and_eq_true, decide_eq_true_eq]
        exact ⟨hy, hrec⟩
    · simp only [ElementLocator.insertDesc, if_neg hs]
      simp only [scoresSortedDesc, Bool.and_eq_true, decide_eq_true_eq]
      exact ⟨le_of_not_lt hs, hl⟩

/-- sortDesc sorts descending by score. -/
theorem sortDesc_sorted :
    ∀ l : List ElementMatch, scoresSortedDesc (ElementLocator.sortDesc l) = true := by
  intro l
  induction l with
  | nil => rfl
  | cons x xs ih => exact insertDesc_sorted x _ ih

/-- Filtering one score class through insertDesc: the inserted element goes
to the front of its own class and other classes are untouched, because
everything passed over scores strictly higher. -/
theorem insertDesc_filter (s : ℤ) (m : ElementMatch) :
    ∀ l : List ElementMatch,
      (ElementLocator.insertDesc m l).filter (fun x => x.score == s) =
        (if m.score == s then [m] else []) ++ l.filter (fun x => x.score == s) := by
  intro l
  induction l with
  | nil =>
    cases hms : (m.score == s : Bool) <;>
      simp [ElementLocator.insertDesc, List.filter_cons, hms]
  | cons x xs ih =>
    by_cases hs : m.score < x.score
    · simp only [ElementLocator.insertDesc, if_pos hs]
      by_cases hx : (x.score == s : Bool)
      · have hms : (m.score == s : Bool) = false := by
          have hxs : x.score = s := by simpa using hx
          have : m.score ≠ s := by omega
          simpa using this
        simp [List.filter_cons, hx, ih, hms]
      · simp [List.filter_cons, hx, ih]
    · simp only [ElementLocator.insertDesc, if_neg hs]
      by_cases hm : (m.score == s : Bool)
      · simp [List.filter_cons, hm]
      · simp [List.filter_cons, hm]

/-- Stability of the sort: each score class keeps its discovery order. -/
theorem sortDesc_filter (s : ℤ) :
    ∀ l : List ElementMatch,
      (ElementLocator.sortDesc l).filter (fun x => x.score == s) =
        l.filter (fun x => x.score == s) := by
  intro l
  induction l with
  | nil => rfl
  | cons x xs ih =>
    simp only [ElementLocator.sortDesc, insertDesc_filter, ih, List.filter_cons]
    by_cases hx : (x.score == s : Bool)
    · simp [hx]
    · simp [hx]

/-- Closed form of the property loop of searchWithConditions: it adds 25
to the raw score and one to the match count per satisfied property. -/
theorem condPropsFold (node : UINode) :
    ∀ (l : List (String × JSValue)) (init : ℤ × Nat),
      l.foldl
        (fun acc kv =>
          if jsStrictEq (node.properties.lookup kv.1) kv.2 then
            (acc.1 + 25, acc.2 + 1)
          else acc)
        init =
      (init.1 + 25 * (l.countP (fun kv => jsStrictEq (node.properties.lookup kv.1) kv.2) : ℤ),
        init.2 + l.countP (fun kv => jsStrictEq (node.properties.lookup kv.1) kv.2)) := by
  intro l
  induction l with
  | nil => intro init; simp
  | cons kv kvs ih =>
    intro init
    by_cases h : jsStrictEq (node.properties.lookup kv.1) kv.2 = true
    · simp only [List.foldl_cons, if_pos h, ih, List.countP_cons, h, if_pos]
      refine Prod.ext ?_ ?_
      · simp only
        push_cast
        ring
      · simp only
        omega
    · have hb : jsStrictEq (node.properties.lookup kv.1) kv.2 = false := by
        simpa using h
      simp only [List.foldl_cons, if_neg h, ih, List.countP_cons, hb]
      simp


/-- The text step delivers the specification's text weight and bit. -/
theorem condTextEval_eq (node : UINode) (c : SearchConditions) :
    ElementLocator.condTextEval node c =
      ((if specTextBit node c then 30 else 0 : ℤ),
        (if specTextBit node c then 1 else 0 : Nat)) := by
  unfold ElementLocator.condTextEval specTextBit
  by_cases h1 : jsTruthyOptStr c.text = true
  · cases hct : c.text with
    | none => rw [hct] at h1; simp [jsTruthyOptStr] at h1
    | some t =>
      rw [hct] at h1
      cases hnn : node.name with
      | none => simp [h1, hnn]
      | some nm =>
        by_cases hinc : jsIncludes (jsToLower nm) (jsToLower t) = true
        · simp [h1, hnn, hinc]
        · have hincf : jsIncludes (jsToLower nm) (jsToLower t) = false := by
            simpa using hinc
          simp [h1, hnn, hincf]
  · have h1f : jsTruthyOptStr c.text = false := by simpa using h1
    simp [h1f]

/-- The type step adds the specification's type weight and bit. -/
theorem condTypeEval_eq (node : UINode) (c : SearchConditions) (s1 : ℤ × Nat) :
    ElementLocator.condTypeEval node c s1 =
      (s1.1 + (if specTypeBit node c then 20 else 0 : ℤ),
        s1.2 + (if specTypeBit node c then 1 else 0 : Nat)) := by
  unfold ElementLocator.condTypeEval specTypeBit
  by_cases h2 : jsTruthyOptStr c.type = true
  · cases hcy : c.type with
    | none => rw [hcy] at h2; simp [jsTruthyOptStr] at h2
    | some ty =>
      rw [hcy] at h2
      by_cases h3 : (node.type == ty : Bool)
      · simp [h2, h3]
      · have h3f : (node.type == ty : Bool) = false := by simpa using h3
        simp [h2, h3f]
  · have h2f : jsTruthyOptStr c.type = false := by simpa using h2
    simp [h2f]

/-- The properties step adds the specification's property weights/count. -/
theorem condPropsEval_eq (node : UINode) (c : SearchConditions) (s2 : ℤ × Nat) :
    ElementLocator.condPropsEval node c s2 =
      (s2.1 + 25 * (specPropCount node c : ℤ), s2.2 + specPropCount node c) := by
  unfold ElementLocator.condPropsEval specPropCount
  cases hcp : c.properties with
  | none => simp
  | some l => simp [condPropsFold]

/-- The incremental accumulation of searchWithConditions equals the
specification's closed-form raw score and matched count. -/
theorem nodeCondEval_eq_spec (node : UINode) (c : SearchConditions) :
    ElementLocator.nodeCondEval node c = (specRawScore node c, specMatchedCount node c) := by
  unfold ElementLocator.nodeCondEval specRawScore specMatchedCount
  rw [condTextEval_eq, condTypeEval_eq, condPropsEval_eq]

/-- Membership in the child-list conditions search factors through a child. -/
theorem mem_searchWithConditionsList :
    ∀ (ns : List UINode) (c : SearchConditions) (path : List String)
      (m : ElementMatch),
      m ∈ ElementLocator.searchWithConditionsList ns c path →
      ∃ x, x ∈ ns ∧ m ∈ ElementLocator.searchWithConditions x c path := by
  intro ns
  induction ns with
  | nil =>
    intro c path m hm
    simp [ElementLocator.searchWithConditionsList] at hm
  | cons x xs ih =>
    intro c path m hm
    rw [ElementLocator.searchWithConditionsList] at hm
    rcases List.mem_append.mp hm with h | h
    · exact ⟨x, by simp, h⟩
    · obtain ⟨d, hd, hmd⟩ := ih c path m h
      exact ⟨d, by simp [hd], hmd⟩

/-- Every match the conditions search returns has at least one satisfied
sub-condition and carries exactly the transformed clamped score of its own
node's raw score and matched count. -/
theorem searchWithConditions_score_eq (c : SearchConditions) :
    ∀ (n : UINode) (path : List String) (m : ElementMatch),
      m ∈ ElementLocator.searchWithConditions n c path →
      0 < (ElementLocator.nodeCondEval m.node c).2 ∧
        m.score = ElementLocator.condScore (ElementLocator.nodeCondEval m.node c).1
          (ElementLocator.nodeCondEval m.node c).2 (ElementLocator.condTotal c) := by
  intro n
  induction n using UINode.strong_induction with
  | _ n ih =>
    intro path m hm
    cases n with
    | mk i t nm pd f1 f2 par pr cs =>
      simp only [UINode.children] at ih
      rw [ ElementLocator.searchWithConditions.eq_def] at hm
      rcases List.mem_append.mp hm with h | h
      · by_cases hev :
          0 < (ElementLocator.nodeCondEval (.mk i t nm pd f1 f2 par pr cs) c).2
        · simp only [if_pos hev, List.mem_singleton] at h
          subst h
          exact ⟨hev, rfl⟩
        · simp only [if_neg hev] at h
          simp at h
      · obtain ⟨x, hx, hmx⟩ := mem_searchWithConditionsList cs c _ m h
        exact ih x hx _ m hmx

/-- Error count over one more poll iteration. -/
theorem errCount_succ (poll : UIController.PollTrace) (n : Nat) :
    UIController.errCount poll (n + 1) =
      UIController.errCount poll n + (if (poll n).2 = .err then 1 else 0) := by
  unfold UIController.errCount
  rw [List.range_succ, List.countP_append]
  by_cases h : (poll n).2 = UIController.PollOutcome.err
  · simp [h]
  · have hb : ((poll n).2 == UIController.PollOutcome.err) = false := by
      simpa using h
    simp [h, hb]

/-- The error count is monotone in the number of iterations. -/
theorem errCount_mono (poll : UIController.PollTrace) :
    ∀ i j : Nat, i ≤ j →
      UIController.errCount poll i ≤ UIController.errCount poll j := by
  intro i j hij
  induction j with
  | zero =>
    have : i = 0 := Nat.le_zero.mp hij
    simp [this]
  | succ j ih =>
    rcases Nat.lt_or_ge i (j + 1) with h | h
    · have hj : i ≤ j := Nat.lt_succ_iff.mp h
      calc UIController.errCount poll i ≤ UIController.errCount poll j := ih hj
        _ ≤ UIController.errCount poll (j + 1) := by
            rw [errCount_succ]
            omega
    · have : i = j + 1 := le_antisymm hij h
      simp [this]

/-- Poll start instants are monotone. -/
theorem pollStart_mono (poll : UIController.PollTrace) :
    ∀ i j : Nat, i ≤ j →
      UIController.pollStart poll i ≤ UIController.pollStart poll j := by
  intro i j hij
  induction j with
  | zero =>
    have : i = 0 := Nat.le_zero.mp hij
    simp [this]
  | succ j ih =>
    rcases Nat.lt_or_ge i (j + 1) with h | h
    · have hj : i ≤ j := Nat.lt_succ_iff.mp h
      calc UIController.pollStart poll i ≤ UIController.pollStart poll j := ih hj
        _ ≤ UIController.pollStart poll (j + 1) := by
            rw [UIController.pollStart]
            omega
    · have : i = j + 1 := le_antisymm hij h
      simp [this]

/-- The wait loop times out (returns the null result) whenever no poll ever
finds the element and the cumulative error count stays below the retry
limit; the fuel hypothesis is satisfiable because each iteration advances
the clock by at least the 500 ms sleep. -/
theorem waitAux_timedOut (timeout : Nat) (poll : UIController.PollTrace)
    (hnf : ∀ j, (poll j).2 ≠ .found)
    (herr : ∀ n, UIController.errCount poll n ≤ 2) :
    ∀ (fuel i now retry : Nat), retry = UIController.errCount poll i →
      timeout ≤ now + fuel →
      UIController.waitAux timeout poll fuel i now retry = .timedOut := by
  intro fuel
  induction fuel with
  | zero =>
    intro i now retry _ hfl
    rw [ UIController.waitAux.eq_def]
    simp only [Nat.add_zero] at hfl
    simp [hfl]
  | succ f ih =>
    intro i now retry hr hfl
    have h500 : UIController.DEFAULT_POLL_INTERVAL = 500 := rfl
    rw [ UIController.waitAux.eq_def]
    by_cases hnow : timeout ≤ now
    · simp [hnow]
    · simp only [if_neg hnow]
      cases ho : (poll i).2 with
      | found => exact absurd ho (hnf i)
      | notFound =>
        simp only
        apply ih (i + 1)
        · rw [hr, errCount_succ]
          simp [ho]
        · omega
      | err =>
        have h1 : UIController.errCount poll (i + 1) =
            UIController.errCount poll i + 1 := by
          rw [errCount_succ]
          simp [ho]
        have h2 : retry + 1 ≤ 2 := by
          have := herr (i + 1)
          omega
        have h3 : ¬ UIController.MAX_RETRY_COUNT ≤ retry + 1 := by
          unfold UIController.MAX_RETRY_COUNT
          omega
        simp only [if_neg h3]
        apply ih (i + 1)
        · omega
        · omega

/-- The wait loop raises on the iteration at which the cumulative error
count reaches the retry limit of three, provided that iteration starts
before the deadline and the element was never found up to it. -/
theorem waitAux_raised (timeout : Nat) (poll : UIController.PollTrace) (e3 : Nat)
    (he3 : (poll e3).2 = .err)
    (hc : UIController.errCount poll (e3 + 1) = 3)
    (hnf : ∀ j, j ≤ e3 → (poll j).2 ≠ .found)
    (hstart : UIController.pollStart poll e3 < timeout) :
    ∀ (m i now retry fuel : Nat), i + m = e3 →
      now = UIController.pollStart poll i →
      retry = UIController.errCount poll i → m + 1 ≤ fuel →
      UIController.waitAux timeout poll fuel i now retry = .raised := by
  have he2 : UIController.errCount poll e3 = 2 := by
    have := errCount_succ poll e3
    rw [he3] at this
    simp at this
    omega
  intro m
  induction m with
  | zero =>
    intro i now retry fuel hie hnow hr hfl
    have hi : i = e3 := by omega
    subst hi
    cases fuel with
    | zero => omega
    | succ f =>
      rw [ UIController.waitAux.eq_def]
      have hlt : ¬ timeout ≤ now := by
        rw [hnow]
        omega
      simp only [if_neg hlt]
      rw [he3]
      simp only
      have : UIController.MAX_RETRY_COUNT ≤ retry + 1 := by
        unfold UIController.MAX_RETRY_COUNT
        omega
      simp [this]
  | succ m ih =>
    intro i now retry fuel hie hnow hr hfl
    have hile : i ≤ e3 := by omega
    cases fuel with
    | zero => omega
    | succ f =>
      rw [ UIController.waitAux.eq_def]
      have hle : now ≤ UIController.pollStart poll e3 := by
        rw [hnow]
        exact pollStart_mono poll i e3 hile
      have hlt : ¬ timeout ≤ now := by omega
      simp only [if_neg hlt]
      cases ho : (poll i).2 with
      | found => exact absurd ho (hnf i hile)
      | notFound =>
        simp only
        apply ih (i + 1) _ _ f (by omega)
        · rw [hnow, UIController.pollStart]
        · rw [hr, errCount_succ]
          simp [ho]
        · omega
      | err =>
        have h1 : UIController.errCount poll (i + 1) =
            UIController.errCount poll i + 1 := by
          rw [errCount_succ]
          simp [ho]
        have hmono : UIController.errCount poll (i + 1) ≤ 2 := by
          have := errCount_mono poll (i + 1) e3 (by omega)
          omega
        have h3 : ¬ UIController.MAX_RETRY_COUNT ≤ retry + 1 := by
          unfold UIController.MAX_RETRY_COUNT
          omega
        simp only [if_neg h3]
        apply ih (i + 1) _ _ f (by omega)
        · rw [hnow, UIController.pollStart]
        · omega
        · omega

/-- An invalid coordinate makes validateCoordinate raise. -/
theorem validateCoordinate_error (v : JSNum) (h : coordInvalid v = true) :
    ∃ e, Validator.validateCoordinate v = .error e := by
  cases v with
  | nan => exact ⟨_, rfl⟩
  | fin x =>
    simp only [coordInvalid, Bool.or_eq_true, decide_eq_true_eq] at h
    unfold Validator.validateCoordinate
    rcases h with h | h
    · simp [h]
    · have : (x < 0 || Validator.MAX_COORDINATE_VALUE < x : Bool) = true := by
        simp [h]
      simp [this]

/-- A valid coordinate passes validateCoordinate. -/
theorem validateCoordinate_ok (v : JSNum) (h : coordInvalid v = false) :
    Validator.validateCoordinate v = .ok () := by
  cases v with
  | nan => simp [coordInvalid] at h
  | fin x =>
    simp only [coordInvalid, Bool.or_eq_false_iff, decide_eq_false_iff_not] at h
    unfold Validator.validateCoordinate
    have : (x < 0 || Validator.MAX_COORDINATE_VALUE < x : Bool) = false := by
      simp [h.1, h.2]
    simp [this]

/-- Unfolding of allNodes at an abstract node. -/
theorem allNodes_unfold (p : UINode → Bool) (n : UINode) :
    allNodes p n = (p n && allNodesList p n.children) := by
  cases n with
  | mk i t nm pd f1 f2 par pr cs => rfl

/-- allNodesList distributes over list append. -/
theorem allNodesList_append (p : UINode → Bool) :
    ∀ l1 l2 : List UINode,
      allNodesList p (l1 ++ l2) = (allNodesList p l1 && allNodesList p l2) := by
  intro l1 l2
  induction l1 with
  | nil => simp [allNodesList]
  | cons c cs ih =>
    rw [List.cons_append, allNodesList, allNodesList, ih, Bool.and_assoc]

/-- allNodesList is the pointwise conjunction over the list. -/
theorem allNodesList_eq_all (p : UINode → Bool) :
    ∀ l : List UINode, allNodesList p l = l.all (allNodes p) := by
  intro l
  induction l with
  | nil => rfl
  | cons c cs ih => rw [allNodesList, ih, List.all_cons]

/-- A pointwise implication lifts through allNodes. -/
theorem allNodes_imp (p q : UINode → Bool) (hpq : ∀ x, p x = true → q x = true) :
    ∀ n, allNodes p n = true → allNodes q n = true := by
  intro n
  induction n using UINode.strong_induction with
  | _ n ih =>
    intro hn
    rw [allNodes_unfold] at hn ⊢
    rw [Bool.and_eq_true] at hn ⊢
    refine ⟨hpq n hn.1, ?_⟩
    rw [allNodesList_eq_all] at hn ⊢
    rw [List.all_eq_true] at hn ⊢
    intro c hc
    exact ih c hc (hn.2 c hc)

/-- Appending a parser-good child to a parser-good node stays parser-good. -/
theorem parserGood_appendChild (p c : UINode) (hp : parserGood p = true)
    (hc : parserGood c = true) : parserGood (p.appendChild c) = true := by
  cases p with
  | mk i t nm pd f1 f2 par pr cs =>
    unfold parserGood at hp hc ⊢
    rw [UINode.appendChild]
    rw [allNodes] at hp ⊢
    rw [Bool.and_eq_true] at hp ⊢
    refine ⟨hp.1, ?_⟩
    rw [allNodesList_append]
    rw [Bool.and_eq_true]
    refine ⟨hp.2, ?_⟩
    rw [allNodesList, allNodesList]
    simp [hc]

/-- Rewriting the parentId keeps a node parser-good. -/
theorem parserGood_withParentId (n : UINode) (pid : String)
    (h : parserGood n = true) : parserGood (n.withParentId pid) = true := by
  cases n with
  | mk i t nm pd f1 f2 par pr cs =>
    unfold parserGood at h ⊢
    rw [UINode.withParentId]
    rw [allNodes] at h ⊢
    exact h

/-- popN keeps a stack of parser-good nodes parser-good. -/
theorem parserGood_popN :
    ∀ (k : Nat) (s : List UINode), s.all parserGood = true →
      (RenderServiceParser.popN k s).all parserGood = true := by
  intro k
  induction k with
  | zero => intro s h; exact h
  | succ k ih =>
    intro s h
    cases s with
    | nil =>
      rw [RenderServiceParser.popN]
      · exact h
      · intro a b r hab
        simp at hab
    | cons t rest =>
      cases rest with
      | nil =>
        rw [RenderServiceParser.popN]
        · exact h
        · intro a b r hab
          simp at hab
      | cons p rest2 =>
        rw [RenderServiceParser.popN]
        simp only [List.all_cons, Bool.and_eq_true] at h
        apply ih
        simp only [List.all_cons, Bool.and_eq_true]
        exact ⟨parserGood_appendChild p t h.2.1 h.1, h.2.2⟩

/-- Collapsing a stack of parser-good nodes yields a parser-good tree. -/
theorem parserGood_collapseAll (s : List UINode) (h : s.all parserGood = true)
    (r : UINode) (hr : RenderServiceParser.collapseAll s = some r) :
    parserGood r = true := by
  unfold RenderServiceParser.collapseAll at hr
  have hall := parserGood_popN (s.length - 1) s h
  cases hpop : RenderServiceParser.popN (s.length - 1) s with
  | nil => rw [hpop] at hr; exact absurd hr (by simp)
  | cons x xs =>
    cases xs with
    | nil =>
      rw [hpop] at hr hall
      simp only [List.all_cons, Bool.and_eq_true] at hall
      have : r = x := by
        simp at hr
        exact hr.symm
      rw [this]
      exact hall.1
    | cons y ys => rw [hpop] at hr; exact absurd hr (by simp)

/-- setAssoc keeps a forest of parser-good trees parser-good. -/
theorem parserGood_setAssoc :
    ∀ (l : List (Nat × UINode)) (k : Nat) (v : UINode),
      l.all (fun pr => parserGood pr.2) = true → parserGood v = true →
      (RenderServiceParser.setAssoc l k v).all (fun pr => parserGood pr.2) = true := by
  intro l
  induction l with
  | nil =>
    intro k v _ hv
    simp [RenderServiceParser.setAssoc, hv]
  | cons kv rest ih =>
    intro k v hl hv
    rw [ RenderServiceParser.setAssoc.eq_def]
    simp only [List.all_cons, Bool.and_eq_true] at hl
    by_cases hk : kv.1 = k
    · cases kv with
      | mk k0 v0 =>
        simp only at hk
        simp [hk, List.all_cons, hv, hl.2]
    · cases kv with
      | mk k0 v0 =>
        simp only at hk
        simp only [if_neg hk, List.all_cons, Bool.and_eq_true]
        exact ⟨hl.1, ih k v hl.2 hv⟩

/-- One modifiers token never writes boundsData and never writes a string
bounds value. -/
theorem modifiersStep_shape (m : ModifierInfo) (part : List Char)
    (h : m.boundsData = none ∧ ∀ st, m.bounds ≠ some (.strval st)) :
    (RenderServiceParser.modifiersStep m part).boundsData = none ∧
      ∀ st, (RenderServiceParser.modifiersStep m part).bounds ≠ some (.strval st) := by
  unfold RenderServiceParser.modifiersStep
  by_cases he : part.isEmpty
  · simp [he, h.1, h.2]
  · simp only [he, Bool.false_eq_true, if_false]
    cases hbg : scanFor RenderServiceParser.matchBackgroundColorAt part with
    | some v => exact ⟨h.1, h.2⟩
    | none =>
      by_cases hb : part = ['B', 'o', 'u', 'n', 'd', 's']
      · simp [hb, h.1]
      · by_cases hf : part = ['F', 'r', 'a', 'm', 'e']
        · simp [hb, hf, h.1, h.2]
        · simp [hb, hf, h.1, h.2]

/-- parseModifiers only ever emits the boolean Bounds presence flag: no
boundsData and no string-valued bounds. -/
theorem parseModifiers_shape (s : List Char) :
    (RenderServiceParser.parseModifiers s).boundsData = none ∧
      ∀ st, (RenderServiceParser.parseModifiers s).bounds ≠ some (.strval st) := by
  unfold RenderServiceParser.parseModifiers
  generalize ((splitOnCh ',' s).map trimChars) = parts
  have base : (({} : ModifierInfo).boundsData = none ∧
      ∀ st, ({} : ModifierInfo).bounds ≠ some (.strval st)) := by
    constructor
    · rfl
    · intro st hst
      cases hst
  generalize hM : ({} : ModifierInfo) = m0
  rw [hM] at base
  clear hM
  induction parts generalizing m0 with
  | nil => exact base
  | cons p ps ih => exact ih _ (modifiersStep_shape m0 p base)

/-- Every node parseNodeLine builds is parser-shaped. -/
theorem parseNodeLine_good (line : List Char) (n : UINode)
    (h : RenderServiceParser.parseNodeLine line = some n) : parserGood n = true := by
  unfold RenderServiceParser.parseNodeLine at h
  cases hty : scanFor RenderServiceParser.matchTypeAt line with
  | none => rw [hty] at h; exact absurd h (by simp)
  | some tyid =>
    rw [hty] at h
    cases tyid with
    | mk ty ident =>
      simp only [Option.some.injEq] at h
      subst h
      unfold parserGood allNodes
      rw [allNodesList]
      simp only [Bool.and_true]
      unfold parserShapedProps
      simp only [UINode.properties]
      simp only [Option.isNone_none, Bool.true_and]
      cases hmod : scanFor RenderServiceParser.matchModifiersAt line with
      | none => rfl
      | some ms =>
        simp only [Option.map_some']
        have hshape := parseModifiers_shape ms
        rw [hshape.1]
        simp only [Option.isNone_none, Bool.true_and]
        cases hb : (RenderServiceParser.parseModifiers ms).bounds with
        | none => simp
        | some bv =>
          cases bv with
          | flag b => simp [hb]
          | strval st => exact absurd hb (hshape.2 st)

/-- The root node of a root-marker line is parser-shaped. -/
theorem mkRoot_good (pid : Nat) : parserGood (RenderServiceParser.mkRoot pid) = true := by
  rfl

/-- Flushing a good state yields a good forest. -/
theorem flushState_good (st : RenderServiceParser.PState)
    (hf : st.finished.all (fun pr => parserGood pr.2) = true)
    (hs : st.stack.all parserGood = true) :
    (RenderServiceParser.flushState st).all (fun pr => parserGood pr.2) = true := by
  unfold RenderServiceParser.flushState
  cases hr : st.rootPid with
  | none => simpa using hf
  | some pid =>
    cases hc : RenderServiceParser.collapseAll st.stack with
    | none => simpa using hf
    | some r =>
      simp only
      exact parserGood_setAssoc st.finished pid r hf
        (parserGood_collapseAll st.stack hs r hc)

/-- One parse-loop iteration keeps the state's forest and stack good. -/
theorem processLine_good (st : RenderServiceParser.PState) (line : List Char)
    (hf : st.finished.all (fun pr => parserGood pr.2) = true)
    (hs : st.stack.all parserGood = true) :
    (RenderServiceParser.processLine st line).finished.all
        (fun pr => parserGood pr.2) = true ∧
      (RenderServiceParser.processLine st line).stack.all parserGood = true := by
  unfold RenderServiceParser.processLine
  by_cases hb : (trimChars line).isEmpty
  · simp only [hb, if_true]
    exact ⟨hf, hs⟩
  · simp only [hb, Bool.false_eq_true, if_false]
    cases hp : RenderServiceParser.findPid line with
    | some pid =>
      simp only
      refine ⟨flushState_good st hf hs, ?_⟩
      simp [mkRoot_good]
    | none =>
      simp only
      by_cases hd : RenderServiceParser.countDepth line = 0
      · simp only [hd, if_true]
        exact ⟨hf, hs⟩
      · simp only [hd, if_false]
        cases hn : RenderServiceParser.parseNodeLine line with
        | none => exact ⟨hf, hs⟩
        | some n =>
          simp only
          have hpop := parserGood_popN
            (st.stack.length - RenderServiceParser.countDepth line) st.stack hs
          cases hcc : RenderServiceParser.popN
              (st.stack.length - RenderServiceParser.countDepth line) st.stack with
          | nil => exact ⟨hf, by simp [parseNodeLine_good line n hn]⟩
          | cons p rest =>
            rw [hcc] at hpop
            simp only [List.all_cons, Bool.and_eq_true] at hpop
            refine ⟨hf, ?_⟩
            simp only [List.all_cons, Bool.and_eq_true]
            exact ⟨parserGood_withParentId n p.id (parseNodeLine_good line n hn),
              hpop.1, hpop.2⟩

/-- The whole parse loop keeps the state good. -/
theorem foldl_processLine_good :
    ∀ (lines : List (List Char)) (st : RenderServiceParser.PState),
      st.finished.all (fun pr => parserGood pr.2) = true →
      st.stack.all parserGood = true →
      (lines.foldl RenderServiceParser.processLine st).finished.all
          (fun pr => parserGood pr.2) = true ∧
        (lines.foldl RenderServiceParser.processLine st).stack.all parserGood = true := by
  intro lines
  induction lines with
  | nil => intro st hf hs; exact ⟨hf, hs⟩
  | cons l ls ih =>
    intro st hf hs
    have h1 := processLine_good st l hf hs
    exact ih _ h1.1 h1.2

/-- Every tree in any parsed forest is parser-shaped throughout. -/
theorem parse_parserGood (output : String) :
    (RenderServiceParser.parse output).all (fun pr => parserGood pr.2) = true := by
  unfold RenderServiceParser.parse
  have h := foldl_processLine_good (splitLinesCh output.data) ⟨[], [], none⟩ rfl rfl
  exact flushState_good _ h.1 h.2

/-- A parser-shaped properties bag defeats every branch of getCoordinates,
and with it the centre extraction of smartTap. -/
theorem coordFree_of_parserShaped (n : UINode)
    (h : parserShapedProps n.properties = true) : coordFree n = true := by
  unfold parserShapedProps at h
  rw [Bool.and_eq_true] at h
  have hpos : n.properties.position.isNone = true := h.1
  have hgcp : ElementLocator.getCoordinatesPos n = none := by
    unfold ElementLocator.getCoordinatesPos
    cases hp : n.properties.position with
    | none => rfl
    | some ps => rw [hp] at hpos; simp at hpos
  have hgc : ElementLocator.getCoordinates n = none := by
    unfold ElementLocator.getCoordinates
    cases hm : n.properties.modifiers with
    | none => exact hgcp
    | some m =>
      have h2 := h.2
      rw [hm] at h2
      simp only [Bool.and_eq_true] at h2
      have hbd : m.boundsData = none := by
        cases hx : m.boundsData with
        | none => rfl
        | some c => rw [hx] at h2; simp at h2
      simp only [hbd]
      cases hbv : m.bounds with
      | none => exact hgcp
      | some bv =>
        cases bv with
        | flag b => exact hgcp
        | strval st =>
          rw [hbv] at h2
          simp at h2
  unfold coordFree
  rw [hgc]
  unfold UIController.extractCenterCoordinates
  rw [hgc]
  rfl

/-- A line without a root marker changes neither the finished forest nor
the rooted flag of the parse state. -/
theorem processLine_nopid (st : RenderServiceParser.PState) (line : List Char)
    (h : RenderServiceParser.findPid line = none) :
    (RenderServiceParser.processLine st line).finished = st.finished ∧
      (RenderServiceParser.processLine st line).rootPid = st.rootPid := by
  unfold RenderServiceParser.processLine
  by_cases hb : (trimChars line).isEmpty
  · simp [hb]
  · simp only [hb, Bool.false_eq_true, if_false, h]
    by_cases hd : RenderServiceParser.countDepth line = 0
    · simp [hd]
    · simp only [hd, if_false]
      cases hn : RenderServiceParser.parseNodeLine line with
      | none => exact ⟨rfl, rfl⟩
      | some n =>
        simp only
        cases RenderServiceParser.popN
            (st.stack.length - RenderServiceParser.countDepth line) st.stack with
        | nil => exact ⟨rfl, rfl⟩
        | cons p rest => exact ⟨rfl, rfl⟩

/-- The parse loop over marker-free lines keeps forest and flag unchanged. -/
theorem foldl_processLine_nopid :
    ∀ (lines : List (List Char)) (st : RenderServiceParser.PState),
      (∀ l, l ∈ lines → RenderServiceParser.findPid l = none) →
      (lines.foldl RenderServiceParser.processLine st).finished = st.finished ∧
        (lines.foldl RenderServiceParser.processLine st).rootPid = st.rootPid := by
  intro lines
  induction lines with
  | nil => intro st _; exact ⟨rfl, rfl⟩
  | cons l ls ih =>
    intro st hall
    have h1 := processLine_nopid st l (hall l (by simp))
    have h2 := ih (RenderServiceParser.processLine st l)
      (fun x hx => hall x (by simp [hx]))
    rw [List.foldl_cons, h2.1, h2.2, h1.1, h1.2]
    exact ⟨rfl, rfl⟩

/-! ## Claim theorems -/

/-- C1: parsing the dump with a pid 10 root marker, a Canvas line and a
named Text line yields exactly one forest entry, keyed by process id 10,
whose root has a single Canvas child with a single Text child named OK;
and findByText on that root for OK (non-exact) returns exactly one match
with score 100 and path ProcessRoot, Canvas, Text(OK). -/
theorem C1_scenario_parse_and_findByText :
    RenderServiceParser.parse c1Dump = [(10, c1Root)] ∧
      ElementLocator.findByText c1Root "OK" false =
        [⟨c1TextNode, ["ProcessRoot", "Canvas", "Text(OK)"], 100⟩] :=
  ⟨rfl, rfl⟩

/-- C2 counterexample: for the query Login with exact set to false, the
node named LogIn2 scores 85 (not below 85 as claimed), because its
lowercased name contains the lowercased query, which is the 85-point
containment tier. -/
theorem C2_counterexample_login2_scores_85 :
    (ElementLocator.findByText c2Tree "Login" false).map
        (fun m => (m.node.name, m.score)) =
      [(some "Login", 100), (some "LoginButton", 85), (some "LogIn2", 85)] ∧
      ∃ m ∈ ElementLocator.findByText c2Tree "Login" false,
        m.node.name = some "LogIn2" ∧ ¬ m.score < 85 :=
  ⟨rfl, by decide⟩

/-- C2 amended: every match findByText returns is scored by calculateScore
on its own node, calculateScore is exactly the tiered function of the
specification applied to the node's name, and in the concrete example the
scores of Login, LoginButton and LogIn2 are 100, 85 and 85: the LogIn2
node falls in the 85-point containment tier, not below it. -/
theorem C2_amended_tiered_scoring :
    (∀ (root : UINode) (text : String),
        (ElementLocator.findByText root text false).all
          (fun m => m.score == ElementLocator.calculateScore m.node text) = true) ∧
      (∀ (n : UINode) (text : String),
        ElementLocator.calculateScore n text = specTieredScore n.name text) ∧
      (ElementLocator.findByText c2Tree "Login" false).map (fun m => m.score) =
        [100, 85, 85] := by
  refine ⟨?_, calculateScore_eq_specTieredScore, rfl⟩
  intro root text
  rw [List.all_eq_true]
  intro m hm
  rw [beq_iff_eq]
  exact searchTextWithScore_score_eq text root [] false m hm

/-- C3 counterexample: findByText applies no sort, so a single query can
return an 85-scoring match before a 100-scoring one. -/
theorem C3_counterexample_findByText_unsorted :
    (ElementLocator.findByText c3Tree "Login" false).map (fun m => m.score) =
        [85, 100] ∧
      scoresSortedDesc (ElementLocator.findByText c3Tree "Login" false) = false :=
  ⟨rfl, rfl⟩

/-- C3 amended: only findByConditions sorts its matches, descending by
score and stably (each score class keeps depth-first discovery order);
findByType and findByProperty assign constant scores 80 and 100, so any
order is trivially score-sorted; findByText returns its matches in plain
depth-first discovery order with no sorting applied. -/
theorem C3_amended_sorting :
    (∀ (root : UINode) (c : SearchConditions),
        scoresSortedDesc (ElementLocator.findByConditions root c) = true) ∧
      (∀ (root : UINode) (c : SearchConditions) (s : ℤ),
        (ElementLocator.findByConditions root c).filter (fun m => m.score == s) =
          (ElementLocator.searchWithConditions root c []).filter
            (fun m => m.score == s)) ∧
      (∀ (root : UINode) (ty : String),
        (ElementLocator.findByType root ty).all (fun m => m.score == 80) = true) ∧
      (∀ (root : UINode) (k : String) (v : JSValue),
        (ElementLocator.findByProperty root k v).all
          (fun m => m.score == 100) = true) ∧
      (∀ (root : UINode) (t : String) (em : Bool),
        ElementLocator.findByText root t em =
          ElementLocator.searchTextWithScore root t [] em) := by
  refine ⟨?_, ?_, ?_, ?_, fun _ _ _ => rfl⟩
  · intro root c
    exact sortDesc_sorted _
  · intro root c s
    exact sortDesc_filter s _
  · intro root ty
    rw [List.all_eq_true]
    intro m hm
    rw [beq_iff_eq]
    exact searchType_score_eq ty root [] m hm
  · intro root k v
    rw [List.all_eq_true]
    intro m hm
    rw [beq_iff_eq]
    exact searchProperty_score_eq k v root [] m hm


/-- Transformed score of a node matching only the type condition out of
two conditions: the ratio product is 500, far above the clamp. -/
theorem c4_condScore_type_only : ElementLocator.condScore 20 1 2 = 100 := by
  unfold ElementLocator.condScore jsRound
  have hfl : (⌊((20 : ℤ) : ℚ) / ((2 : ℕ) : ℚ) * (((1 : ℕ) : ℚ) / ((2 : ℕ) : ℚ)) * 100 + 1 / 2⌋ : ℤ) = 500 := by
    rw [Int.floor_eq_iff]
    constructor <;> norm_num
  rw [hfl]
  norm_num [min_def]

/-- Transformed score of a node matching both conditions: 2500, clamped. -/
theorem c4_condScore_both : ElementLocator.condScore 50 2 2 = 100 := by
  unfold ElementLocator.condScore jsRound
  have hfl : (⌊((50 : ℤ) : ℚ) / ((2 : ℕ) : ℚ) * (((2 : ℕ) : ℚ) / ((2 : ℕ) : ℚ)) * 100 + 1 / 2⌋ : ℤ) = 2500 := by
    rw [Int.floor_eq_iff]
    constructor <;> norm_num
  rw [hfl]
  norm_num [min_def]

/-- The conditions query on the example tree: both Buttons come back with
the clamped score 100, in depth-first order. -/
theorem c4_findByConditions_eval :
    ElementLocator.findByConditions c4Tree c4Conds =
      [⟨mkNamedLeaf "a" "Button" (some "Cancel"),
          ["ProcessRoot", "Button(Cancel)"], 100⟩,
        ⟨mkNamedLeaf "b" "Button" (some "OK"),
          ["ProcessRoot", "Button(OK)"], 100⟩] := by
  have hsw : ElementLocator.searchWithConditions c4Tree c4Conds [] =
      [⟨mkNamedLeaf "a" "Button" (some "Cancel"),
          ["ProcessRoot", "Button(Cancel)"], ElementLocator.condScore 20 1 2⟩,
        ⟨mkNamedLeaf "b" "Button" (some "OK"),
          ["ProcessRoot", "Button(OK)"], ElementLocator.condScore 50 2 2⟩] := rfl
  rw [c4_condScore_type_only, c4_condScore_both] at hsw
  unfold ElementLocator.findByConditions
  rw [hsw]
  rfl

/-- C4 counterexample: under the condition set of type Button and text OK,
a node matching only the type condition already reaches the 100-point
clamp (its transformed score exceeds 100 and is clamped), so it does not
score strictly lower than a node matching both conditions: both score
exactly 100. -/
theorem C4_counterexample_clamp_saturates :
    (ElementLocator.findByConditions c4Tree c4Conds).map
        (fun m => (m.node.name, m.score)) =
      [(some "Cancel", 100), (some "OK", 100)] ∧
      ∃ m ∈ ElementLocator.findByConditions c4Tree c4Conds,
        (ElementLocator.nodeCondEval m.node c4Conds).2 = 1 ∧
          ∀ m2 ∈ ElementLocator.findByConditions c4Tree c4Conds,
            ¬ m.score < m2.score := by
  rw [c4_findByConditions_eval]
  constructor
  · rfl
  · refine ⟨⟨mkNamedLeaf "a" "Button" (some "Cancel"),
      ["ProcessRoot", "Button(Cancel)"], 100⟩, by simp, rfl, ?_⟩
    intro m2 hm2
    simp only [List.mem_cons, List.mem_singleton, List.not_mem_nil, or_false] at hm2
    rcases hm2 with h | h <;> subst h <;> decide

/-- C4 amended: each satisfied sub-condition contributes its fixed weight
(text 30, type 20, each property 25) to the raw score and one to the match
count; a node with no satisfied sub-condition is excluded; every returned
score equals the rounded transformed ratio clamped to 100; but for the
condition set of type Button and text OK the clamp saturates, so a node
matching only the type condition scores the same 100 as a node matching
both conditions rather than strictly lower. -/
theorem C4_amended_condition_scoring :
    (∀ (root : UINode) (c : SearchConditions),
        (ElementLocator.findByConditions root c).all
          (fun m =>
            (0 < (ElementLocator.nodeCondEval m.node c).2 : Bool) &&
              (m.score ==
                ElementLocator.condScore (ElementLocator.nodeCondEval m.node c).1
                  (ElementLocator.nodeCondEval m.node c).2
                  (ElementLocator.condTotal c))) = true) ∧
      (∀ (node : UINode) (c : SearchConditions),
        ElementLocator.nodeCondEval node c =
          (specRawScore node c, specMatchedCount node c)) ∧
      (ElementLocator.findByConditions c4Tree c4Conds).map (fun m => m.score) =
        [100, 100] := by
  refine ⟨?_, nodeCondEval_eq_spec, ?_⟩
  · intro root c
    unfold ElementLocator.findByConditions
    rw [sortDesc_all, List.all_eq_true]
    intro m hm
    have h := searchWithConditions_score_eq c root [] m hm
    simp only [Bool.and_eq_true, decide_eq_true_eq, beq_iff_eq]
    exact ⟨h.1, h.2⟩
  · rw [c4_findByConditions_eval]
    rfl
/-- C5: the MCP text tool never succeeds and never issues a device
command: the HDC class defines no inputText method, so for every input the
handler returns the same fixed error response with an empty command
trace. -/
theorem C5_text_tool_always_fails :
    (∀ s : String,
        McpServer.textToolHandler (some s) =
          ⟨true, "hdc.inputText is not a function", []⟩) ∧
      HDC.hdcMethods.contains "inputText" = false :=
  ⟨fun _ => rfl, rfl⟩

/-- C6: tap rejects a NaN, negative, or over-limit coordinate before any
device call: the validation error is raised and the command trace stays
empty; pressKey likewise rejects an empty or non-string key, and swipe
rejects invalid coordinates and a negative duration, all without issuing a
device command. -/
theorem C6_validation_before_device_call :
    (∀ (sh : HDC.DeviceCmd → String) (x y : JSNum),
        coordInvalid x = true ∨ coordInvalid y = true →
        (HDC.tap sh x y).cmds = [] ∧
          ∃ e, (HDC.tap sh x y).outcome = .error e) ∧
      (∀ (sh : HDC.DeviceCmd → String) (k : Validator.JSStrArg),
        k = .str "" ∨ k = .notStr →
        (HDC.pressKey sh k).cmds = [] ∧
          ∃ e, (HDC.pressKey sh k).outcome = .error e) ∧
      (∀ (sh : HDC.DeviceCmd → String) (x1 y1 x2 y2 d : JSNum),
        coordInvalid x1 = true ∨ coordInvalid y1 = true ∨
            coordInvalid x2 = true ∨ coordInvalid y2 = true ∨
            HDC.durationInvalid d = true →
        (HDC.swipe sh x1 y1 x2 y2 d).cmds = [] ∧
          ∃ e, (HDC.swipe sh x1 y1 x2 y2 d).outcome = .error e) := by
  refine ⟨?_, ?_, ?_⟩
  · intro sh x y h
    by_cases hx : coordInvalid x = true
    · obtain ⟨e, he⟩ := validateCoordinate_error x hx
      unfold HDC.tap
      rw [he]
      exact ⟨rfl, ⟨e, rfl⟩⟩
    · have hy : coordInvalid y = true := by tauto
      have vx := validateCoordinate_ok x (by simpa using hx)
      obtain ⟨e, he⟩ := validateCoordinate_error y hy
      unfold HDC.tap
      rw [vx, he]
      exact ⟨rfl, ⟨e, rfl⟩⟩
  · intro sh k h
    rcases h with h | h <;> subst h
    · exact ⟨rfl, ⟨"key name must be a nonempty string", rfl⟩⟩
    · exact ⟨rfl, ⟨"key name must be a nonempty string", rfl⟩⟩
  · intro sh x1 y1 x2 y2 d h
    by_cases h1 : coordInvalid x1 = true
    · obtain ⟨e, he⟩ := validateCoordinate_error x1 h1
      unfold HDC.swipe
      rw [he]
      exact ⟨rfl, ⟨e, rfl⟩⟩
    · have v1 := validateCoordinate_ok x1 (by simpa using h1)
      by_cases h2 : coordInvalid y1 = true
      · obtain ⟨e, he⟩ := validateCoordinate_error y1 h2
        unfold HDC.swipe
        rw [v1, he]
        exact ⟨rfl, ⟨e, rfl⟩⟩
      · have v2 := validateCoordinate_ok y1 (by simpa using h2)
        by_cases h3 : coordInvalid x2 = true
        · obtain ⟨e, he⟩ := validateCoordinate_error x2 h3
          unfold HDC.swipe
          rw [v1, v2, he]
          exact ⟨rfl, ⟨e, rfl⟩⟩
        · have v3 := validateCoordinate_ok x2 (by simpa using h3)
          by_cases h4 : coordInvalid y2 = true
          · obtain ⟨e, he⟩ := validateCoordinate_error y2 h4
            unfold HDC.swipe
            rw [v1, v2, v3, he]
            exact ⟨rfl, ⟨e, rfl⟩⟩
          · have v4 := validateCoordinate_ok y2 (by simpa using h4)
            have hd : HDC.durationInvalid d = true := by tauto
            unfold HDC.swipe
            rw [v1, v2, v3, v4, hd]
            exact ⟨rfl, ⟨"duration must be nonnegative", rfl⟩⟩

/-- C6 witness: the theorem applied at a NaN tap coordinate, an empty key
and a NaN swipe coordinate. -/
theorem C6_witness :
    ((HDC.tap (fun _ => "") .nan (.fin 5)).cmds = [] ∧
        ∃ e, (HDC.tap (fun _ => "") .nan (.fin 5)).outcome = .error e) ∧
      ((HDC.pressKey (fun _ => "") (.str "")).cmds = [] ∧
        ∃ e, (HDC.pressKey (fun _ => "") (.str "")).outcome = .error e) ∧
      ((HDC.swipe (fun _ => "") .nan (.fin 1) (.fin 2) (.fin 3) (.fin 4)).cmds = [] ∧
        ∃ e, (HDC.swipe (fun _ => "") .nan (.fin 1) (.fin 2) (.fin 3)
          (.fin 4)).outcome = .error e) :=
  ⟨C6_validation_before_device_call.1 _ .nan (.fin 5) (Or.inl rfl),
    C6_validation_before_device_call.2.1 _ (.str "") (Or.inl rfl),
    C6_validation_before_device_call.2.2 _ .nan (.fin 1) (.fin 2) (.fin 3) (.fin 4)
      (Or.inl rfl)⟩

/-- Each poll iteration advances the clock by at least one millisecond, so
iteration indices are bounded by their start instants. -/
theorem pollStart_ge (poll : UIController.PollTrace) :
    ∀ k, k ≤ UIController.pollStart poll k := by
  intro k
  induction k with
  | zero => exact Nat.le_refl 0
  | succ k ih =>
    have h500 : UIController.DEFAULT_POLL_INTERVAL = 500 := rfl
    rw [UIController.pollStart]
    omega

/-- C7 counterexample: with the default 10000 ms timeout, a poll trace
whose errors sit at iterations 0, 2 and 4 — never two consecutive — still
makes waitForElement raise, because the retry counter accumulates across
successful polls instead of counting consecutive errors. -/
theorem C7_counterexample_nonconsecutive_errors :
    UIController.waitForElement UIController.DEFAULT_WAIT_TIMEOUT c7Poll = .raised ∧
      (List.range 21).all
        (fun i => !((c7Poll i).2 == .err && (c7Poll (i + 1)).2 == .err)) = true :=
  ⟨by decide, by decide⟩

/-- C7 amended: waitForElement polls at the fixed 500 ms interval with the
wall-clock deadline checked at the top of each iteration; if the element
never resolves and fewer than three ingestion errors occur in total it
returns the null timeout result rather than throwing; and it raises on the
iteration at which the third cumulative ingestion error occurs — the
counter is never reset by intervening successful polls, so the three
errors need not be consecutive. -/
theorem C7_amended_cumulative_retry :
    (∀ (timeout : Nat) (poll : UIController.PollTrace),
        (∀ j, (poll j).2 ≠ .found) →
        (∀ n, UIController.errCount poll n ≤ 2) →
        UIController.waitForElement timeout poll = .timedOut) ∧
      (∀ (timeout : Nat) (poll : UIController.PollTrace) (e3 : Nat),
        (poll e3).2 = .err →
        UIController.errCount poll (e3 + 1) = 3 →
        (∀ j, j ≤ e3 → (poll j).2 ≠ .found) →
        UIController.pollStart poll e3 < timeout →
        UIController.waitForElement timeout poll = .raised) := by
  constructor
  · intro timeout poll hnf herr
    unfold UIController.waitForElement
    exact waitAux_timedOut timeout poll hnf herr (timeout + 1) 0 0 0 rfl (by omega)
  · intro timeout poll e3 he3 hc hnf hstart
    unfold UIController.waitForElement
    have hge := pollStart_ge poll e3
    exact waitAux_raised timeout poll e3 he3 hc hnf hstart e3 0 0 0 (timeout + 1)
      (by omega) rfl rfl (by omega)

/-- C7 witness: the amended theorem applied to an all-notFound trace (the
wait times out and returns null) and to the concrete three-error trace
(the wait raises on the third cumulative error). -/
theorem C7_witness :
    UIController.waitForElement 3000 (fun _ => (0, .notFound)) = .timedOut ∧
      UIController.waitForElement UIController.DEFAULT_WAIT_TIMEOUT c7Poll = .raised := by
  constructor
  · apply C7_amended_cumulative_retry.1
    · intro j
      decide
    · intro n
      have h0 : UIController.errCount (fun _ => ((0 : Nat), UIController.PollOutcome.notFound)) n = 0 := by
        unfold UIController.errCount
        apply List.countP_eq_zero.mpr
        intro a _
        simp
      omega
  · exact C7_amended_cumulative_retry.2 _ c7Poll 4 (by decide) (by decide)
      (by decide) (by decide)

/-- C8: the swipe duration-to-velocity mapping is monotone on nonnegative
durations, always lands in the platform velocity range 200 to 40000, is
concretely the clamped rounding of one hundred times the duration, and is
exactly the velocity carried by the swipe device command. -/
theorem C8_swipe_velocity_mapping :
    (∀ d1 d2 : ℚ, 0 ≤ d1 → d1 ≤ d2 →
        HDC.velocityOfDuration d1 ≤ HDC.velocityOfDuration d2) ∧
      (∀ d : ℚ, 200 ≤ HDC.velocityOfDuration d ∧ HDC.velocityOfDuration d ≤ 40000) ∧
      (∀ d : ℚ, HDC.velocityOfDuration d = max 200 (min 40000 (jsRound (d * 100)))) ∧
      (∀ (sh : HDC.DeviceCmd → String) (d : ℚ), 0 ≤ d →
        (HDC.swipe sh (.fin 0) (.fin 0) (.fin 0) (.fin 0) (.fin d)).cmds =
          [HDC.DeviceCmd.swipeCmd (jsRound 0) (jsRound 0) (jsRound 0) (jsRound 0)
            (.fin ((HDC.velocityOfDuration d : ℤ) : ℚ))]) := by
  refine ⟨?_, ?_, fun _ => rfl, ?_⟩
  · intro d1 d2 _ h12
    unfold HDC.velocityOfDuration
    have hr : jsRound (d1 * 100) ≤ jsRound (d2 * 100) := by
      unfold jsRound
      apply Int.floor_le_floor
      nlinarith
    exact max_le_max (le_refl 200) (min_le_min (le_refl 40000) hr)
  · intro d
    unfold HDC.velocityOfDuration
    constructor
    · exact le_max_left 200 _
    · exact max_le (by norm_num) (min_le_left _ _)
  · intro sh d hd
    have hv0 : coordInvalid (.fin 0) = false := by
      unfold coordInvalid Validator.MAX_COORDINATE_VALUE
      norm_num
    have hok := validateCoordinate_ok (.fin 0) hv0
    have hdur : HDC.durationInvalid (.fin d) = false := by
      unfold HDC.durationInvalid
      simpa using not_lt.mpr hd
    unfold HDC.swipe
    rw [hok, hdur]
    rfl

/-- C8 witness: monotonicity applied at durations 0 and 1, and the swipe
command shape applied at duration 0. -/
theorem C8_witness :
    HDC.velocityOfDuration 0 ≤ HDC.velocityOfDuration 1 ∧
      (HDC.swipe (fun _ => "") (.fin 0) (.fin 0) (.fin 0) (.fin 0) (.fin 0)).cmds =
        [HDC.DeviceCmd.swipeCmd (jsRound 0) (jsRound 0) (jsRound 0) (jsRound 0)
          (.fin ((HDC.velocityOfDuration 0 : ℤ) : ℚ))] :=
  ⟨C8_swipe_velocity_mapping.1 0 1 (le_refl 0) zero_le_one,
    C8_swipe_velocity_mapping.2.2.2 (fun _ => "") 0 (le_refl 0)⟩

/-- C9: every node of every tree that ingestion produces (the parser and
its verbatim copy in the locator) yields no coordinates: getCoordinates
returns none on it, and so smartTap's centre extraction returns none — the
parser only ever records the boolean bounds presence flag, never
boundsData, a string bounds, or a position property. -/
theorem C9_parsed_nodes_yield_no_coordinates :
    ∀ output : String,
      (RenderServiceParser.parse output).all
          (fun pr => allNodes coordFree pr.2) = true ∧
        (ElementLocator.parseUITree output).all
          (fun pr => allNodes coordFree pr.2) = true := by
  intro output
  have h := parse_parserGood output
  rw [List.all_eq_true] at h
  constructor
  · rw [List.all_eq_true]
    intro pr hpr
    exact allNodes_imp _ coordFree coordFree_of_parserShaped pr.2 (h pr hpr)
  · rw [List.all_eq_true]
    intro pr hpr
    exact allNodes_imp _ coordFree coordFree_of_parserShaped pr.2 (h pr hpr)

/-- C10: an input with no pid root-marker line parses to the empty forest
(node lines before the first root marker are parsed but attached to no
tree), and on the concrete mixed dump the pre-marker node line is dropped
while the rooted subtree survives. -/
theorem C10_forest_only_from_root_markers :
    (∀ output : String,
        (splitLinesCh output.data).all
            (fun l => (RenderServiceParser.findPid l).isNone) = true →
        RenderServiceParser.parse output = []) ∧
      RenderServiceParser.parse c10MixedDump = [(7, c10Tree)] := by
  constructor
  · intro output h
    have hl : ∀ l ∈ splitLinesCh output.data,
        RenderServiceParser.findPid l = none := by
      rw [List.all_eq_true] at h
      intro l hlm
      have := h l hlm
      simpa using this
    have h2 := foldl_processLine_nopid (splitLinesCh output.data) ⟨[], [], none⟩ hl
    have hr : ((splitLinesCh output.data).foldl
        RenderServiceParser.processLine ⟨[], [], none⟩).rootPid = none := h2.2
    have hf : ((splitLinesCh output.data).foldl
        RenderServiceParser.processLine ⟨[], [], none⟩).finished = [] := h2.1
    unfold RenderServiceParser.parse RenderServiceParser.flushState
    rw [hr, hf]
  · rfl

/-- C10 witness: the theorem applied to a dump whose two node lines carry
no root marker at all. -/
theorem C10_witness :
    RenderServiceParser.parse c10OrphanDump = [] :=
  C10_forest_only_from_root_markers.1 c10OrphanDump (by decide)
